import Mathlib

/-!
Verification of the LineIntersection repository (Bentley–Ottmann sweep line over
a custom AVL tree).  The Python source (`AVLTree.py`, `LineIntersection.py`) is
shallowly embedded below: machine floats become `ℚ`, the mutable pointer-based
tree becomes an inductive tree with the parent-pointer information passed
explicitly where the source reads it, exceptions become an explicit `Except`,
and the shared mutable sweep-line scalar is passed as an argument to every
function that reads it in the source.
-/

namespace LI

/-- Errors raised by the Python source at runtime (modelled explicitly).
`attributeError` covers `None.attr` accesses, `typeError` the `None < float`
comparison in `find_new_event`, `indexError` a `list[0]` on an empty list.
`staleRebalance` marks the branch of `TreeObject.remove` where the balance
check runs on the just-detached node and a rotation would re-attach it through
its stale parent pointer (an aliasing effect a pure tree cannot represent);
`impossible` marks calls the source never makes (method calls on `None` that
are guarded at every call site). -/
inductive Err where
  | attributeError
  | typeError
  | indexError
  | staleRebalance
  | impossible
  | outOfFuel
  deriving DecidableEq, Repr

/-- A 2-D point as used for segment endpoints (`Point` in the source; the
`line_segment` back-reference is written but never read, so it is omitted). -/
structure Pt where
  x : ℚ
  y : ℚ
  deriving DecidableEq, Repr

/-- A `Point` object used as an event-queue key/value.  `pid` models Python
object identity (each `Point(...)` allocation gets a fresh id). -/
structure EPoint where
  x : ℚ
  y : ℚ
  pid : Nat
  deriving DecidableEq, Repr

/-- `Point.compare`: coordinate equality. -/
def Pt.compare (p : Pt) (q : EPoint) : Bool :=
  p.x = q.x && p.y = q.y

/-- A `Line` object: canonicalised endpoints plus object identity `lid`.
The mutable `order` field is write-before-read within a single event, so it is
modelled by returning `(segment, order)` pairs from `sort_by_sweepline_order`
instead of mutating the object. -/
structure Line where
  upper : Pt
  lower : Pt
  lid : Nat
  deriving DecidableEq, Repr

/-- `Line.__init__`: the endpoint with the greater y becomes `upper`; ties in y
are broken by the smaller x. -/
def mkLine (point1 point2 : Pt) (lid : Nat) : Line :=
  if point1.y > point2.y then ⟨point1, point2, lid⟩
  else if point1.y < point2.y then ⟨point2, point1, lid⟩
  else if point1.x < point2.x then ⟨point1, point2, lid⟩
  else ⟨point2, point1, lid⟩

/-- `AvlTree.default_comparator`: `key1 < key2`. -/
def default_comparator (key1 key2 : ℚ) : Bool := key1 < key2

/-- `AvlTree.default_equals`: `key1 == key2`. -/
def default_equals (key1 key2 : ℚ) : Bool := key1 = key2

/-- `FindIntersections.compare_events`: higher y first, ties by smaller x. -/
def compare_events (key1 key2 : EPoint) : Bool :=
  if key1.y = key2.y then key1.x < key2.x else key1.y > key2.y

/-- `FindIntersections.event_equals`: coordinate equality of two points. -/
def event_equals (key1 key2 : EPoint) : Bool :=
  key1.x = key2.x && key1.y = key2.y

/-! ## The AVL tree (`AVLTree.py`)

`PTree` is the tree reachable from a node; `leaf` stands for Python's `None`
child pointer.  The comparison functions of a tree instance are passed to each
operation (the source stores them on every node):
`cmp`/`keq` are the `comparator`/`equals` predicates, `kne` is Python's raw
`!=` on keys (used by `replace_self`), and `vIs` is Python's `is` on the
stored values (object identity). -/
inductive PTree (K V : Type) where
  | leaf
  | node (key : K) (value : V) (left right : PTree K V)
  deriving DecidableEq, Repr

namespace PTree

variable {K V : Type}

/-- In-order list of (key, value) pairs stored in the tree: the multiset of
stored pairs read off in symmetric order. -/
def pairs : PTree K V → List (K × V)
  | leaf => []
  | node k v l r => pairs l ++ (k, v) :: pairs r

/-- In-order list of keys. -/
def keys (t : PTree K V) : List K := (pairs t).map Prod.fst

/-- `TreeObject.check_height` (with `height_left`/`height_right` inlined:
an absent child contributes 0, a present child `1 + check_height`). -/
def check_height : PTree K V → Nat
  | leaf => 0
  | node _ _ l r =>
    max (match l with | leaf => 0 | _ => 1 + check_height l)
        (match r with | leaf => 0 | _ => 1 + check_height r)

/-- `TreeObject.height_left`. -/
def height_left : PTree K V → Nat
  | leaf => 0
  | node _ _ l _ => match l with | leaf => 0 | _ => 1 + check_height l

/-- `TreeObject.height_right`. -/
def height_right : PTree K V → Nat
  | leaf => 0
  | node _ _ _ r => match r with | leaf => 0 | _ => 1 + check_height r

/-- `TreeObject.check_balance`: right height minus left height. -/
def check_balance (t : PTree K V) : Int :=
  (height_right t : Int) - (height_left t : Int)

/-- `TreeObject.simple_rot_right`.  The source is only ever executed with a
present left child (`check_balance < -1` forces one); the `leaf` fallback is
the unreachable completion of the pattern match. -/
def simple_rot_right : PTree K V → PTree K V
  | node k v (node lk lv ll lr) r => node lk lv ll (node k v lr r)
  | t => t

/-- `TreeObject.simple_rot_left`. -/
def simple_rot_left : PTree K V → PTree K V
  | node k v l (node rk rv rl rr) => node rk rv (node k v l rl) rr
  | t => t

/-- The balance check and single rotation run at the end of
`TreeObject.insert` / `remove` / `remove_pair`. -/
def balanceStep (t : PTree K V) : PTree K V :=
  let b := check_balance t
  if b < -1 then simple_rot_right t
  else if b > 1 then simple_rot_left t
  else t

/-- `TreeObject.insert`.  Smaller keys (per `cmp`) go left; everything else
goes right.  The identity no-op check sits inside the `cmp = true` branch, and
when `cmp` and `keq` both hold but the value differs, no branch of the source
inserts the object (it is silently dropped) and control falls through to the
balance check.  The `leaf` equation is unreachable (the source only calls
`insert` on actual nodes). -/
def insert (cmp keq : K → K → Bool) (vIs : V → V → Bool) :
    PTree K V → K → V → PTree K V
  | leaf, nk, nv => node nk nv leaf leaf
  | node k v l r, nk, nv =>
    if cmp nk k then
      if keq nk k then
        if vIs nv v then node k v l r else balanceStep (node k v l r)
      else
        match l with
        | leaf => balanceStep (node k v (node nk nv leaf leaf) r)
        | _ => balanceStep (node k v (insert cmp keq vIs l nk nv) r)
    else
      match r with
      | leaf => balanceStep (node k v l (node nk nv leaf leaf))
      | _ => balanceStep (node k v l (insert cmp keq vIs r nk nv))

/-- `TreeObject.find_rightmost`, returning the node's key and value. -/
def find_rightmost : PTree K V → Option (K × V)
  | leaf => none
  | node k v _ r => match r with | leaf => some (k, v) | _ => find_rightmost r

/-- `TreeObject.find_leftmost`, returning the node's key and value. -/
def find_leftmost : PTree K V → Option (K × V)
  | leaf => none
  | node k v l _ => match l with | leaf => some (k, v) | _ => find_leftmost l

/-- `TreeObject.is_in`. -/
def is_in (cmp keq : K → K → Bool) : PTree K V → K → Bool
  | leaf, _ => false
  | node k _ l r, key =>
    if keq key k then true
    else if cmp key k then
      match l with | leaf => false | _ => is_in cmp keq l key
    else
      match r with | leaf => false | _ => is_in cmp keq r key

/-- `TreeObject.pop_lowest`: remove and return the leftmost node's value.
The source splices the leftmost node out through its parent pointer;
functionally the left spine is rebuilt. -/
def pop_lowest : PTree K V → Option (V × PTree K V)
  | leaf => none
  | node _ v leaf r => some (v, r)
  | node k v (node lk lv ll lr) r =>
    match pop_lowest (node lk lv ll lr) with
    | none => none
    | some (w, l') => some (w, node k v l' r)

/-- Number of nodes in the tree. -/
def size : PTree K V → Nat
  | leaf => 0
  | node _ _ l r => size l + size r + 1

/-- One round of `AvlTree.pop_all`'s `while` loop, with the remaining number
of rounds made explicit (each `pop_lowest` removes exactly one node, so the
loop runs `size` times). -/
def pop_all_go : Nat → PTree K V → List V
  | 0, _ => []
  | n + 1, t =>
    match pop_lowest t with
    | none => []
    | some (v, t') => v :: pop_all_go n t'

/-- `AvlTree.pop_all`: pop the lowest element until the tree is empty. -/
def pop_all (t : PTree K V) : List V := pop_all_go (size t) t

/-- Key of the root node, `None` for an absent node. -/
def rootKey? : PTree K V → Option K
  | leaf => none
  | node k _ _ _ => some k

/-! ### Removal (`TreeObject.remove` / `remove_pair` / `replace_self`)

The source removes nodes by mutating parent pointers.  The information the
matched node reads from its parent is packaged in `PInfo`: whether the node is
its parent's right child, and the key of the parent's *left* child
(`replace_self` dereferences `self.parent.left_child.key`, raising
`AttributeError` when that child is absent).  `RemRes` is what a recursion
frame reports upward: `sub t'` means "the subtree slot I was called on is now
`t'`" (the normal case); `cross newLeft keptRight` reproduces the
`replace_self` branch that assigns `self.parent.left_child = substitute` while
`self` is the parent's *right* child, so the parent's left slot becomes the
substitute and its right slot keeps the matched node with its stale
children. -/
structure PInfo (K : Type) where
  isRight : Bool
  parentLeftKey : Option K

inductive RemRes (K V : Type) where
  | sub (t' : PTree K V)
  | cross (newLeft keptRight : PTree K V)

/-- `find_rightmost` combined with `substitute_right`: returns the rightmost
node's key, value and left child, together with the subtree with that node
spliced out (its parent's right pointer redirected to its left child). -/
def popRightmost : PTree K V → Option ((K × V × PTree K V) × PTree K V)
  | leaf => none
  | node k v l leaf => some ((k, v, l), l)
  | node k v l (node rk rv rl rr) =>
    match popRightmost (node rk rv rl rr) with
    | none => none
    | some (s, r') => some (s, node k v l r')

/-- `find_leftmost` combined with `substitute_left`: returns the leftmost
node's key, value and right child, together with the subtree with that node
spliced out. -/
def popLeftmost : PTree K V → Option ((K × V × PTree K V) × PTree K V)
  | leaf => none
  | node k v leaf r => some ((k, v, r), r)
  | node k v (node lk lv ll lr) r =>
    match popLeftmost (node lk lv ll lr) with
    | none => none
    | some (s, l') => some (s, node k v l' r)

/-- The matched branch of `TreeObject.remove`/`remove_pair`: the substitute is
extracted (`substitute_right`/`substitute_left`), `replace_self` re-attaches
the matched node's children to it under the `key !=` guards (an equal key
silently drops the corresponding subtree — the source keeps the substitute's
own stale child instead), and the trailing balance check of `remove` then runs
on the *detached* node, whose stale child pointers still reference subtrees of
the result; if that check triggers a rotation, the source re-attaches the
removed node through its stale parent pointer, which a pure tree cannot
express — that branch is modelled as the explicit error `staleRebalance`. -/
def matchedRemoval (keq kne : K → K → Bool) (pinfo : Option (PInfo K))
    (k : K) (v : V) (l r : PTree K V) : Except Err (RemRes K V) :=
  match l, r with
  | leaf, leaf =>
    -- both children absent: `replace_self(None)` / `tree.root = None`
    Except.ok (RemRes.sub leaf)
  | node lk lv ll lr, _ =>
    let sub_stale : PTree K V × PTree K V :=
      match lr with
      | leaf =>
        -- the substitute is the left child itself; `substitute_right` no-ops,
        -- then `replace_self` grafts the old right child under it
        let attachedRight :=
          match r with
          | leaf => leaf
          | node rk _ _ _ => if kne rk lk then r else leaf
        let newSub := node lk lv ll attachedRight
        (newSub, node k v newSub r)
      | node _ _ _ _ =>
        match popRightmost (node lk lv ll lr) with
        | none => (leaf, leaf)  -- unreachable: the argument is a node
        | some ((sk, sv, sLeft), l') =>
          let subLeft := if kne lk sk then l' else sLeft
          let subRight :=
            match r with
            | leaf => leaf
            | node rk _ _ _ => if kne rk sk then r else leaf
          (node sk sv subLeft subRight, node k v l' r)
    let newSub := sub_stale.1
    let staleT := sub_stale.2
    let res : Except Err (RemRes K V) :=
      match pinfo with
      | none => Except.ok (RemRes.sub newSub)
      | some pinf =>
        -- `if self.left_child is not None and self.parent is not None and
        --     self.equals(self.parent.left_child.key, self.key): ...`
        match pinf.parentLeftKey with
        | none => Except.error Err.attributeError
        | some plk =>
          if keq plk k then
            if pinf.isRight then Except.ok (RemRes.cross newSub staleT)
            else Except.ok (RemRes.sub newSub)
          else Except.ok (RemRes.sub newSub)
    match res with
    | Except.error e => Except.error e
    | Except.ok rr =>
      if check_balance staleT < -1 ∨ check_balance staleT > 1 then
        Except.error Err.staleRebalance
      else Except.ok rr
  | leaf, node rk rv rl rr =>
    let sub_stale : PTree K V × PTree K V :=
      match rl with
      | leaf =>
        -- the substitute is the right child itself and keeps its own children
        (node rk rv rl rr, node k v leaf (node rk rv rl rr))
      | node _ _ _ _ =>
        match popLeftmost (node rk rv rl rr) with
        | none => (leaf, leaf)  -- unreachable
        | some ((sk, sv, sRight), r') =>
          let subRight := if kne rk sk then r' else sRight
          (node sk sv leaf subRight, node k v leaf r')
    let newSub := sub_stale.1
    let staleT := sub_stale.2
    -- with no left child the first `replace_self` condition is false and the
    -- parent's pointer to the matched node is redirected to the substitute
    if check_balance staleT < -1 ∨ check_balance staleT > 1 then
      Except.error Err.staleRebalance
    else Except.ok (RemRes.sub newSub)

/-- `TreeObject.remove`.  Note the source's descent: it tests
`self.comparator(key1=self.key, key2=key)` — i.e. `self.key < key` — and then
descends LEFT, the reverse of the convention `insert`/`is_in` use.  The `leaf`
equation is unreachable (every call site guards `is not None`). -/
def remove (cmp keq kne : K → K → Bool) :
    PTree K V → K → Option (PInfo K) → Except Err (RemRes K V)
  | leaf, _, _ => Except.error Err.impossible
  | node k v l r, key, pinfo =>
    if keq k key then
      matchedRemoval keq kne pinfo k v l r
    else
      let step : Except Err (PTree K V × PTree K V) :=
        if cmp k key then
          match l with
          | leaf => Except.ok (l, r)
          | node lk _ _ _ =>
            match remove cmp keq kne l key (some ⟨false, some lk⟩) with
            | Except.error e => Except.error e
            | Except.ok (RemRes.sub l') => Except.ok (l', r)
            | Except.ok (RemRes.cross _ _) =>
              -- a left child never reports `cross` (it requires `isRight`)
              Except.error Err.impossible
        else
          match r with
          | leaf => Except.ok (l, r)
          | node _ _ _ _ =>
            match remove cmp keq kne r key (some ⟨true, rootKey? l⟩) with
            | Except.error e => Except.error e
            | Except.ok (RemRes.sub r') => Except.ok (l, r')
            | Except.ok (RemRes.cross newL keptR) => Except.ok (newL, keptR)
      match step with
      | Except.error e => Except.error e
      | Except.ok (l', r') => Except.ok (RemRes.sub (balanceStep (node k v l' r')))

/-- `TreeObject.remove_pair` (only ever invoked on the root): matches on the
key per `equals` *and* the value by identity, but recurses into the children
with the plain key-only `remove`. -/
def remove_pair (cmp keq kne : K → K → Bool) (vIs : V → V → Bool) :
    PTree K V → K → V → Except Err (RemRes K V)
  | leaf, _, _ => Except.error Err.impossible
  | node k v l r, key, val =>
    if keq k key && vIs v val then
      matchedRemoval keq kne none k v l r
    else
      let step : Except Err (PTree K V × PTree K V) :=
        if cmp k key then
          match l with
          | leaf => Except.ok (l, r)
          | node lk _ _ _ =>
            match remove cmp keq kne l key (some ⟨false, some lk⟩) with
            | Except.error e => Except.error e
            | Except.ok (RemRes.sub l') => Except.ok (l', r)
            | Except.ok (RemRes.cross _ _) => Except.error Err.impossible
        else
          match r with
          | leaf => Except.ok (l, r)
          | node _ _ _ _ =>
            match remove cmp keq kne r key (some ⟨true, rootKey? l⟩) with
            | Except.error e => Except.error e
            | Except.ok (RemRes.sub r') => Except.ok (l, r')
            | Except.ok (RemRes.cross newL keptR) => Except.ok (newL, keptR)
      match step with
      | Except.error e => Except.error e
      | Except.ok (l', r') => Except.ok (RemRes.sub (balanceStep (node k v l' r')))

/-- `AvlTree.remove`: dereferences `self.root` without a `None` guard, so the
empty tree raises `AttributeError`. -/
def avl_remove (cmp keq kne : K → K → Bool) (t : PTree K V) (key : K) :
    Except Err (PTree K V) :=
  match t with
  | leaf => Except.error Err.attributeError
  | node _ _ _ _ =>
    match remove cmp keq kne t key none with
    | Except.error e => Except.error e
    | Except.ok (RemRes.sub t') => Except.ok t'
    | Except.ok (RemRes.cross _ _) => Except.error Err.impossible

/-- `AvlTree.remove_pair`: guarded by `if self.root is not None`. -/
def avl_remove_pair (cmp keq kne : K → K → Bool) (vIs : V → V → Bool)
    (t : PTree K V) (key : K) (val : V) : Except Err (PTree K V) :=
  match t with
  | leaf => Except.ok leaf
  | node _ _ _ _ =>
    match remove_pair cmp keq kne vIs t key val with
    | Except.error e => Except.error e
    | Except.ok (RemRes.sub t') => Except.ok t'
    | Except.ok (RemRes.cross _ _) => Except.error Err.impossible

/-! ### Neighbour queries

The source walks parent pointers at the matched node (up to the grandparent).
The ancestors along the search path are passed down explicitly: each entry
`(isRight, key, value)` says whether the current node is the right child of
that ancestor, and carries the ancestor's stored pair. -/

/-- `TreeObject.find_left_neighbor`, returning the found node's (key, value). -/
def find_left_neighbor (cmp keq : K → K → Bool) :
    PTree K V → K → List (Bool × K × V) → Option (K × V)
  | leaf, _, _ => none
  | node k v l r, key, anc =>
    if keq key k then
      match l with
      | node _ _ _ _ => find_rightmost l
      | leaf =>
        match anc with
        | (true, pk, pv) :: _ => some (pk, pv)
        | (false, _, _) :: (true, gk, gv) :: _ => some (gk, gv)
        | _ => none
    else if cmp key k then
      match l with
      | leaf => none
      | _ => find_left_neighbor cmp keq l key ((false, k, v) :: anc)
    else
      match r with
      | leaf => none
      | _ => find_left_neighbor cmp keq r key ((true, k, v) :: anc)

/-- `TreeObject.find_right_neighbor`. -/
def find_right_neighbor (cmp keq : K → K → Bool) :
    PTree K V → K → List (Bool × K × V) → Option (K × V)
  | leaf, _, _ => none
  | node k v l r, key, anc =>
    if keq key k then
      match r with
      | node _ _ _ _ => find_leftmost r
      | leaf =>
        match anc with
        | (false, pk, pv) :: _ => some (pk, pv)
        | (true, _, _) :: (false, gk, gv) :: _ => some (gk, gv)
        | _ => none
    else if cmp key k then
      match l with
      | leaf => none
      | _ => find_right_neighbor cmp keq l key ((false, k, v) :: anc)
    else
      match r with
      | leaf => none
      | _ => find_right_neighbor cmp keq r key ((true, k, v) :: anc)

/-- `TreeObject.find_left_neighbor_by_pair`: like `find_left_neighbor` but the
match additionally requires value identity. -/
def find_left_neighbor_by_pair (cmp keq : K → K → Bool) (vIs : V → V → Bool) :
    PTree K V → K → V → List (Bool × K × V) → Option (K × V)
  | leaf, _, _, _ => none
  | node k v l r, key, val, anc =>
    if keq key k && vIs val v then
      match l with
      | node _ _ _ _ => find_rightmost l
      | leaf =>
        match anc with
        | (true, pk, pv) :: _ => some (pk, pv)
        | (false, _, _) :: (true, gk, gv) :: _ => some (gk, gv)
        | _ => none
    else if cmp key k then
      match l with
      | leaf => none
      | _ => find_left_neighbor_by_pair cmp keq vIs l key val ((false, k, v) :: anc)
    else
      match r with
      | leaf => none
      | _ => find_left_neighbor_by_pair cmp keq vIs r key val ((true, k, v) :: anc)

/-- `TreeObject.find_right_neighbor_by_pair`. -/
def find_right_neighbor_by_pair (cmp keq : K → K → Bool) (vIs : V → V → Bool) :
    PTree K V → K → V → List (Bool × K × V) → Option (K × V)
  | leaf, _, _, _ => none
  | node k v l r, key, val, anc =>
    if keq key k && vIs val v then
      match r with
      | node _ _ _ _ => find_leftmost r
      | leaf =>
        match anc with
        | (false, pk, pv) :: _ => some (pk, pv)
        | (true, _, _) :: (false, gk, gv) :: _ => some (gk, gv)
        | _ => none
    else if cmp key k then
      match l with
      | leaf => none
      | _ => find_right_neighbor_by_pair cmp keq vIs l key val ((false, k, v) :: anc)
    else
      match r with
      | leaf => none
      | _ => find_right_neighbor_by_pair cmp keq vIs r key val ((true, k, v) :: anc)

/-- `TreeObject.find_neighbors`: the `.value` of each neighbour, where the
`try/except AttributeError` around `None.value` becomes `Option.map`. -/
def find_neighbors (cmp keq : K → K → Bool) (t : PTree K V) (key : K) :
    Option V × Option V :=
  ((find_left_neighbor cmp keq t key []).map Prod.snd,
   (find_right_neighbor cmp keq t key []).map Prod.snd)

/-- `AvlTree.find_neighbors`: `(None, None)` on the empty tree. -/
def avl_find_neighbors (cmp keq : K → K → Bool) (t : PTree K V) (key : K) :
    Option V × Option V :=
  match t with
  | leaf => (none, none)
  | _ => find_neighbors cmp keq t key

/-- `AvlTree.find_left_neighbor_by_pair`. -/
def avl_find_left_neighbor_by_pair (cmp keq : K → K → Bool) (vIs : V → V → Bool)
    (t : PTree K V) (key : K) (val : V) : Option V :=
  match t with
  | leaf => none
  | _ => (find_left_neighbor_by_pair cmp keq vIs t key val []).map Prod.snd

/-- `AvlTree.find_right_neighbor_by_pair`. -/
def avl_find_right_neighbor_by_pair (cmp keq : K → K → Bool) (vIs : V → V → Bool)
    (t : PTree K V) (key : K) (val : V) : Option V :=
  match t with
  | leaf => none
  | _ => (find_right_neighbor_by_pair cmp keq vIs t key val []).map Prod.snd

/-- `AvlTree.is_in`. -/
def avl_is_in (cmp keq : K → K → Bool) (t : PTree K V) (key : K) : Bool :=
  match t with
  | leaf => false
  | _ => is_in cmp keq t key

/-- `AvlTree.insert`: a fresh root on the empty tree, otherwise
`TreeObject.insert` (the trailing `self.check_balance()` only computes). -/
def avl_insert (cmp keq : K → K → Bool) (vIs : V → V → Bool)
    (t : PTree K V) (el : K × V) : PTree K V :=
  match t with
  | leaf => node el.1 el.2 leaf leaf
  | _ => insert cmp keq vIs t el.1 el.2

/-- `AvlTree.insert_list`.  On an empty tree the first pair of the caller's
list becomes the root and is popped from that list; the recursive call then
sees a non-empty root and inserts the remaining pairs without popping.  The
second component is the final value of the caller's (mutated) list. -/
def avl_insert_list (cmp keq : K → K → Bool) (vIs : V → V → Bool)
    (t : PTree K V) (elements : List (K × V)) : PTree K V × List (K × V) :=
  match elements with
  | [] => (t, elements)
  | (k0, v0) :: rest =>
    match t with
    | leaf =>
      (rest.foldl (fun acc el => avl_insert cmp keq vIs acc el)
        (node k0 v0 leaf leaf), rest)
    | _ => (elements.foldl (fun acc el => avl_insert cmp keq vIs acc el) t, elements)

/-- `AvlTree.__init__`: the first pair becomes the root and is popped from the
caller's list; the rest is handed to `insert_list` (which pops nothing since
the root now exists).  The second component is the final value of the caller's
list. -/
def avl_init (cmp keq : K → K → Bool) (vIs : V → V → Bool)
    (elements : List (K × V)) : PTree K V × List (K × V) :=
  match elements with
  | [] => (leaf, [])
  | (k0, v0) :: rest =>
    (rest.foldl (fun acc el => avl_insert cmp keq vIs acc el)
      (node k0 v0 leaf leaf), rest)

end PTree

/-! ## The sweep-line driver (`LineIntersection.py`)

Machine floats become exact rationals (so `0.01` is modelled as `1/100` and
`np.linalg.solve` as the exact 2×2 Cramer solution, raising `LinAlgError`
exactly on a zero determinant).  Python `is` on `Line`/`Point` objects is
modelled by the `lid`/`pid` identity fields. -/

/-- Python object identity on `Line` values. -/
def lineIs (a b : Line) : Bool := a.lid = b.lid

/-- Python object identity on `Point` values (the event queue's value type). -/
def pointIs (a b : EPoint) : Bool := a.pid = b.pid

/-- Python's raw `!=` on the status structure's float keys. -/
def rat_ne (a b : ℚ) : Bool := ¬(a = b)

/-- `math.isclose` with its default tolerances
(`rel_tol = 1e-9`, `abs_tol = 0.0`). -/
def isclose (a b : ℚ) : Bool :=
  |a - b| ≤ max (1 / 1000000000 * max |a| |b|) 0

/-- `FindIntersections.lies_on_segment`. -/
def lies_on_segment (segment : Line) (px py : ℚ) : Bool :=
  if py < segment.lower.y ∨ py > segment.upper.y then false
  else
    let rightmost_point := if segment.lower.x > segment.upper.x
      then segment.lower else segment.upper
    let leftmost_point := if segment.lower.x > segment.upper.x
      then segment.upper else segment.lower
    if px < leftmost_point.x ∨ px > rightmost_point.x then false
    else
      let direction_x := segment.upper.x - segment.lower.x
      let direction_y := segment.upper.y - segment.lower.y
      let point_vector_x := px - segment.lower.x
      let point_vector_y := py - segment.lower.y
      if direction_x = 0 ∧ direction_y = 0 then false
      else if direction_x = 0 then point_vector_x = 0
      else if direction_y = 0 then point_vector_y = 0
      else isclose (point_vector_x / direction_x) (point_vector_y / direction_y)

/-- `FindIntersections.calculate_line_status_key`: the x-coordinate of the
segment on the sweep line (the shared `sweepline_position` is passed in). -/
def calculate_line_status_key (sweepline_position : ℚ) (line : Line) : ℚ :=
  if line.lower.x = line.upper.x then line.upper.x
  else if line.lower.y = line.upper.y then line.upper.x
  else
    let m := (line.upper.y - line.lower.y) / (line.upper.x - line.lower.x)
    let b := line.upper.y - line.upper.x * m
    (sweepline_position - b) / m

/-- `FindIntersections.calculate_line_status` (no degeneracy guards; only
called on non-horizontal, non-vertical segments). -/
def calculate_line_status (line : Line) (position : ℚ) : ℚ :=
  let m := (line.upper.y - line.lower.y) / (line.upper.x - line.lower.x)
  let b := line.upper.y - line.upper.x * m
  (position - b) / m

/-- Result of `FindIntersections.line_intersection`: the source returns the
plain `None` (by falling off the end), the tuple `(None, None)` (from the
`LinAlgError` handler), or an intersection point tuple. -/
inductive LIRes where
  | implicitNone
  | nonePair
  | point (x y : ℚ)
  deriving DecidableEq, Repr

/-- `FindIntersections.line_intersection`.  `np.linalg.solve` on the matrix
`transpose([v1, -v2])` with right-hand side `p2 - p1` is modelled exactly:
`LinAlgError` iff the determinant is zero, otherwise the Cramer solution. -/
def line_intersection (segment1 segment2 : Line) : LIRes :=
  let p1 := (segment1.lower.x, segment1.lower.y)
  let v1 := (segment1.upper.x - segment1.lower.x, segment1.upper.y - segment1.lower.y)
  let p2 := (segment2.lower.x, segment2.lower.y)
  let v2 := (-(segment2.upper.x - segment2.lower.x), -(segment2.upper.y - segment2.lower.y))
  let det := v1.1 * v2.2 - v2.1 * v1.2
  if det = 0 then LIRes.nonePair
  else
    let rx := p2.1 - p1.1
    let ry := p2.2 - p1.2
    let t := (rx * v2.2 - v2.1 * ry) / det
    let ix := p1.1 + t * v1.1
    let iy := p1.2 + t * v1.2
    if lies_on_segment segment1 ix iy && lies_on_segment segment2 ix iy then
      LIRes.point ix iy
    else LIRes.implicitNone

/-- Stable insertion of a keyed segment into an already sorted list (a new
element goes after all elements with an equal or smaller order, matching the
stability of Python's `list.sort`). -/
def sbsInsert (x : Line × ℚ) : List (Line × ℚ) → List (Line × ℚ)
  | [] => [x]
  | y :: ys => if x.2 < y.2 then x :: y :: ys else y :: sbsInsert x ys

/-- Stable sort by the computed order key. -/
def sbsSort (l : List (Line × ℚ)) : List (Line × ℚ) :=
  l.foldl (fun acc x => sbsInsert x acc) []

/-- `FindIntersections.sort_by_sweepline_order`.  The source's identity-based
`set` subtractions are modelled as order-preserving filters (Python's set
iteration order is unspecified).  The mutated `order` attribute is returned
alongside each segment.  Horizontal segments go last, each keyed
`last sorted order + 0.01` (or their own upper x if nothing else is there). -/
def sort_by_sweepline_order (sweepline_y : ℚ) (segments : List Line) :
    List (Line × ℚ) :=
  match segments with
  | [] => []
  | _ =>
    let horizontals := segments.filter (fun s => s.upper.y = s.lower.y)
    let rest1 := segments.filter (fun s => ¬(s.upper.y = s.lower.y))
    let verticals := rest1.filter (fun s => s.upper.x = s.lower.x)
    let rest2 := rest1.filter (fun s => ¬(s.upper.x = s.lower.x))
    let withOrders :=
      rest2.map (fun s => (s, calculate_line_status s sweepline_y)) ++
      verticals.map (fun s => (s, s.upper.x))
    let sorted := sbsSort withOrders
    let hOrder : Line → ℚ := fun s =>
      match sorted.getLast? with
      | some last => last.2 + 1 / 100
      | none => s.upper.x
    sorted ++ horizontals.map (fun s => (s, hOrder s))

/-- The status structure's `remove_pair` (default float comparators). -/
def statusRemovePair (t : PTree ℚ Line) (key : ℚ) (val : Line) :
    Except Err (PTree ℚ Line) :=
  PTree.avl_remove_pair default_comparator default_equals rat_ne lineIs t key val

/-- The status structure's `insert_list`. -/
def statusInsertList (t : PTree ℚ Line) (els : List (ℚ × Line)) :
    PTree ℚ Line × List (ℚ × Line) :=
  PTree.avl_insert_list default_comparator default_equals lineIs t els

/-- The status structure's `find_neighbors`. -/
def statusFindNeighbors (t : PTree ℚ Line) (key : ℚ) :
    Option Line × Option Line :=
  PTree.avl_find_neighbors default_comparator default_equals t key

/-- The status structure's `find_left_neighbor_by_pair`. -/
def statusFindLeftNeighborByPair (t : PTree ℚ Line) (key : ℚ) (val : Line) :
    Option Line :=
  PTree.avl_find_left_neighbor_by_pair default_comparator default_equals lineIs
    t key val

/-- The status structure's `find_right_neighbor_by_pair`. -/
def statusFindRightNeighborByPair (t : PTree ℚ Line) (key : ℚ) (val : Line) :
    Option Line :=
  PTree.avl_find_right_neighbor_by_pair default_comparator default_equals lineIs
    t key val

/-- `FindIntersections.find_new_event`.  The singular case is the tuple
`(None, None)`, which passes the `is not None` test and then raises
`TypeError` on `None < point.y`.  A discovered point strictly below the
current event is inserted unless already queued; the fresh `Point` allocation
consumes an identity from the counter. -/
def find_new_event (queue : PTree EPoint EPoint) (ctr : Nat)
    (left_segment right_segment : Line) (point : EPoint) :
    Except Err (PTree EPoint EPoint × Nat) :=
  match line_intersection left_segment right_segment with
  | LIRes.implicitNone => Except.ok (queue, ctr)
  | LIRes.nonePair => Except.error Err.typeError
  | LIRes.point ix iy =>
    if iy < point.y ∨ (iy = point.y ∧ ix > point.x) then
      let intersection_point : EPoint := ⟨ix, iy, ctr⟩
      if PTree.avl_is_in compare_events event_equals queue intersection_point then
        Except.ok (queue, ctr + 1)
      else
        Except.ok (PTree.avl_insert compare_events event_equals pointIs queue
          (intersection_point, intersection_point), ctr + 1)
    else Except.ok (queue, ctr)

/-- The guarded neighbour call of `handle_event_points` step 7:
`if neighbor is not None and neighbor is not segment: find_new_event(...)`. -/
def neighborStep (queue : PTree EPoint EPoint) (ctr : Nat)
    (neighbor : Option Line) (segment : Line) (point : EPoint) :
    Except Err (PTree EPoint EPoint × Nat) :=
  match neighbor with
  | some n =>
    if n.lid ≠ segment.lid then find_new_event queue ctr n segment point
    else Except.ok (queue, ctr)
  | none => Except.ok (queue, ctr)

/-- The classification loop of `handle_event_points` (step 3): each input
segment is tested against the event point; segments whose lower endpoint or
interior contains it are removed from the status structure on the spot. -/
def classify (event_point : EPoint) (sp : ℚ) :
    List Line → PTree ℚ Line → List Line → List Line → List Line →
    Except Err (PTree ℚ Line × List Line × List Line × List Line)
  | [], status, lower_p, upper_p, contains_p =>
    Except.ok (status, lower_p, upper_p, contains_p)
  | segment :: restSegs, status, lower_p, upper_p, contains_p =>
    if segment.upper.compare event_point then
      classify event_point sp restSegs status lower_p (upper_p ++ [segment])
        contains_p
    else if segment.lower.compare event_point then
      match statusRemovePair status (calculate_line_status_key sp segment)
          segment with
      | Except.error e => Except.error e
      | Except.ok status' =>
        classify event_point sp restSegs status' (lower_p ++ [segment]) upper_p
          contains_p
    else if lies_on_segment segment event_point.x event_point.y then
      match statusRemovePair status (calculate_line_status_key sp segment)
          segment with
      | Except.error e => Except.error e
      | Except.ok status' =>
        classify event_point sp restSegs status' lower_p upper_p
          (contains_p ++ [segment])
    else classify event_point sp restSegs status lower_p upper_p contains_p

/-- One scan step of the leftmost/rightmost search over `upper_p` (keyed by
the segment's upper x). -/
def scanUpper (acc : Line × ℚ × Line × ℚ) (segment : Line) :
    Line × ℚ × Line × ℚ :=
  let (ls, lp, rs, rp) := acc
  let (ls, lp) := if segment.upper.x < lp then (segment, segment.upper.x)
    else (ls, lp)
  let (rs, rp) := if segment.upper.x > rp then (segment, segment.upper.x)
    else (rs, rp)
  (ls, lp, rs, rp)

/-- One scan step over `contains_p` (keyed by the current status key at the
perturbed sweep position). -/
def scanContains (sp2 : ℚ) (acc : Line × ℚ × Line × ℚ) (segment : Line) :
    Line × ℚ × Line × ℚ :=
  let (ls, lp, rs, rp) := acc
  let x := calculate_line_status_key sp2 segment
  let (ls, lp) := if x < lp then (segment, x) else (ls, lp)
  let (rs, rp) := if x > rp then (segment, x) else (rs, rp)
  (ls, lp, rs, rp)

/-- `FindIntersections.handle_event_points`.  The shared sweep-line scalar is
`event_point.y` during classification and `event_point.y - 0.01` afterwards
(the final reset has no further observable effect).  Returns the new status
structure, event queue, point-identity counter and intersection list. -/
def handle_event_points (line_segments : List Line) (event_point : EPoint)
    (status0 : PTree ℚ Line) (queue0 : PTree EPoint EPoint) (ctr0 : Nat)
    (intersection_list0 : List (EPoint × List Line)) :
    Except Err
      (PTree ℚ Line × PTree EPoint EPoint × Nat × List (EPoint × List Line)) :=
  let sp := event_point.y
  let ordered_segments := PTree.pop_all status0
  let status1 := (statusInsertList PTree.leaf
    (ordered_segments.map (fun s => (calculate_line_status_key sp s, s)))).1
  match classify event_point sp line_segments status1 [] [] [] with
  | Except.error e => Except.error e
  | Except.ok (status2, lower_p, upper_p, contains_p) =>
    let sp2 := sp - 1 / 100
    let upper_contains_p := sort_by_sweepline_order sp2 (upper_p ++ contains_p)
    let status := (statusInsertList status2
      (upper_contains_p.map (fun so => (so.2, so.1)))).1
    let potential_segments := upper_contains_p.map Prod.fst ++ lower_p
    let intersection_list :=
      if potential_segments.length > 1 then
        intersection_list0 ++ [(event_point, potential_segments)]
      else intersection_list0
    if (upper_p ++ contains_p).length = 0 then
      match statusFindNeighbors status event_point.x with
      | (some left_segment, some right_segment) =>
        (match find_new_event queue0 ctr0 left_segment right_segment
            event_point with
        | Except.error e => Except.error e
        | Except.ok (queue, ctr) =>
          Except.ok (status, queue, ctr, intersection_list))
      | _ => Except.ok (status, queue0, ctr0, intersection_list)
    else
      match upper_contains_p with
      | [] => Except.error Err.indexError  -- unreachable: sorting keeps length
      | (s0, _) :: _ =>
        let st1 := upper_p.foldl scanUpper (s0, s0.upper.x, s0, s0.upper.x)
        let st2 := contains_p.foldl (scanContains sp2) st1
        let leftmost_segment := st2.1
        let rightmost_segment := st2.2.2.1
        let left_neighbor := statusFindLeftNeighborByPair status
          (calculate_line_status_key sp2 leftmost_segment) leftmost_segment
        match neighborStep queue0 ctr0 left_neighbor leftmost_segment
            event_point with
        | Except.error e => Except.error e
        | Except.ok (queue1, ctr1) =>
          let right_neighbor := statusFindRightNeighborByPair status
            (calculate_line_status_key sp2 rightmost_segment) rightmost_segment
          match neighborStep queue1 ctr1 right_neighbor rightmost_segment
              event_point with
          | Except.error e => Except.error e
          | Except.ok (queue2, ctr2) =>
            Except.ok (status, queue2, ctr2, intersection_list)

/-- The `while` loop of `FindIntersections.find_intersections`, with explicit
fuel (the source's loop terminates because each discovered event is strictly
below the current one; running out of fuel is reported as an error). -/
def loopFI (line_segments : List Line) :
    Nat → PTree ℚ Line → PTree EPoint EPoint → Nat →
    List (EPoint × List Line) → Except Err (List (EPoint × List Line))
  | 0, _, _, _, _ => Except.error Err.outOfFuel
  | fuel + 1, status, queue, ctr, intersections =>
    match PTree.pop_lowest queue with
    | none => Except.ok intersections
    | some (next_event_point, queue') =>
      match handle_event_points line_segments next_event_point status queue'
          ctr intersections with
      | Except.error e => Except.error e
      | Except.ok (status', queue'', ctr', intersections') =>
        loopFI line_segments fuel status' queue'' ctr' intersections'

/-- `FindIntersections.line_factory`: each `Line` allocation gets the next
object identity. -/
def line_factory (lines : List ((ℚ × ℚ) × (ℚ × ℚ))) : List Line :=
  lines.enum.map (fun nl =>
    mkLine ⟨nl.2.1.1, nl.2.1.2⟩ ⟨nl.2.2.1, nl.2.2.2⟩ nl.1)

/-- First-occurrence deduplication of coordinate tuples (the source builds a
Python `set` of the endpoint tuples, whose iteration order is unspecified;
first-occurrence order is fixed here). -/
def dedupFirst (l : List (ℚ × ℚ)) : List (ℚ × ℚ) :=
  l.foldl (fun acc p => if p ∈ acc then acc else acc ++ [p]) []

/-- `FindIntersections.event_point_factory`: the distinct endpoints of all
input segments, as `Point` objects with fresh identities. -/
def event_point_factory (lines : List ((ℚ × ℚ) × (ℚ × ℚ))) : List EPoint :=
  let tuples := dedupFirst (lines.map (fun l => l.1) ++ lines.map (fun l => l.2))
  tuples.enum.map (fun np => ⟨np.2.1, np.2.2, np.1⟩)

/-- `FindIntersections.find_intersections`: seeds the event queue with the
endpoint events, an empty status structure, and drains the queue. -/
def find_intersections (line_segments : List Line) (event_points : List EPoint)
    (fuel : Nat) : Except Err (List (EPoint × List Line)) :=
  let queue := (PTree.avl_init compare_events event_equals pointIs
    (event_points.map (fun p => (p, p)))).1
  loopFI line_segments fuel PTree.leaf queue event_points.length []

/-- `FindIntersections.search_intersections`. -/
def search_intersections (lines : List ((ℚ × ℚ) × (ℚ × ℚ))) (fuel : Nat) :
    Except Err (List (EPoint × List Line)) :=
  find_intersections (line_factory lines) (event_point_factory lines) fuel

/-! ## Instantiations of the tree at the default (float) predicates,
with plain `Nat` values standing for distinct Python value objects
(`natIs` is object identity). -/

/-- Object identity on the `Nat`-tagged values of the test trees. -/
def natIs (a b : Nat) : Bool := a = b

/-- `AvlTree.insert` at the default float comparators. -/
def natInsert (t : PTree ℚ Nat) (el : ℚ × Nat) : PTree ℚ Nat :=
  PTree.avl_insert default_comparator default_equals natIs t el

/-- `AvlTree.remove` at the default float comparators. -/
def natRemove (t : PTree ℚ Nat) (k : ℚ) : Except Err (PTree ℚ Nat) :=
  PTree.avl_remove default_comparator default_equals rat_ne t k

/-- `AvlTree.remove_pair` at the default float comparators. -/
def natRemovePair (t : PTree ℚ Nat) (k : ℚ) (v : Nat) :
    Except Err (PTree ℚ Nat) :=
  PTree.avl_remove_pair default_comparator default_equals rat_ne natIs t k v

/-- The tree built by inserting (2, b), (1, a), (3, c) (values `20`, `10`,
`30` are three distinct objects): root 2 with children 1 and 3. -/
def treeC4 : PTree ℚ Nat :=
  natInsert (natInsert (natInsert PTree.leaf (2, 20)) (1, 10)) (3, 30)

/-- A one-node tree holding the pair (1.0, v) for an object `v` (= `10`). -/
def treeOne : PTree ℚ Nat := natInsert PTree.leaf (1, 10)

/-! ## Claim theorems (concrete)

The run of `search_intersections` on the two crossing segments is evaluated
event by event: `loopFI_step`/`loopFI_done` peel one iteration of the drain
loop, and one lemma per event point evaluates `handle_event_points` on the
concrete state (rationals are evaluated by `norm_num`, since kernel reduction
cannot compute `ℚ` arithmetic). -/

theorem loopFI_step (fuel : Nat) (q : PTree EPoint EPoint)
    {segs : List Line} {st st2 : PTree ℚ Line}
    {q' q2 : PTree EPoint EPoint} {c c2 : Nat}
    {recs recs2 : List (EPoint × List Line)} {p : EPoint}
    (hpop : PTree.pop_lowest q = some (p, q'))
    (hh : handle_event_points segs p st q' c recs =
      Except.ok (st2, q2, c2, recs2)) :
    loopFI segs (fuel + 1) st q c recs = loopFI segs fuel st2 q2 c2 recs2 := by
  simp only [loopFI, hpop, hh]

theorem loopFI_done (fuel : Nat) (q : PTree EPoint EPoint)
    {segs : List Line} {st : PTree ℚ Line}
    {c : Nat} {recs : List (EPoint × List Line)}
    (hpop : PTree.pop_lowest q = none) :
    loopFI segs (fuel + 1) st q c recs = Except.ok recs := by
  simp only [loopFI, hpop]

/-- The canonicalised `Line` objects of the crossing-scenario input. -/
def twoCrossSegs : List Line := [⟨⟨2, 2⟩, ⟨0, 0⟩, 0⟩, ⟨⟨0, 2⟩, ⟨2, 0⟩, 1⟩]

/-- The seeded event queue of the crossing scenario. -/
def twoCrossQ0 : PTree EPoint EPoint :=
  PTree.node ⟨0, 0, 0⟩ ⟨0, 0, 0⟩
    (PTree.node ⟨0, 2, 1⟩ ⟨0, 2, 1⟩ PTree.leaf
      (PTree.node ⟨2, 2, 2⟩ ⟨2, 2, 2⟩ PTree.leaf PTree.leaf))
    (PTree.node ⟨2, 0, 3⟩ ⟨2, 0, 3⟩ PTree.leaf PTree.leaf)

/-- The event queue after the event (0, 2) is popped. -/
def twoCrossQ1 : PTree EPoint EPoint :=
  PTree.node ⟨0, 0, 0⟩ ⟨0, 0, 0⟩
    (PTree.node ⟨2, 2, 2⟩ ⟨2, 2, 2⟩ PTree.leaf PTree.leaf)
    (PTree.node ⟨2, 0, 3⟩ ⟨2, 0, 3⟩ PTree.leaf PTree.leaf)

/-- The event queue after the event (2, 2) is popped (and again after the
discovered intersection (1, 1) is popped). -/
def twoCrossQ2 : PTree EPoint EPoint :=
  PTree.node ⟨0, 0, 0⟩ ⟨0, 0, 0⟩ PTree.leaf
    (PTree.node ⟨2, 0, 3⟩ ⟨2, 0, 3⟩ PTree.leaf PTree.leaf)

/-- The event queue with the discovered intersection point (1, 1) queued. -/
def twoCrossQ2i : PTree EPoint EPoint :=
  PTree.node ⟨0, 0, 0⟩ ⟨0, 0, 0⟩
    (PTree.node ⟨1, 1, 4⟩ ⟨1, 1, 4⟩ PTree.leaf PTree.leaf)
    (PTree.node ⟨2, 0, 3⟩ ⟨2, 0, 3⟩ PTree.leaf PTree.leaf)

/-- The event queue after the event (0, 0) is popped. -/
def twoCrossQ4 : PTree EPoint EPoint :=
  PTree.node ⟨2, 0, 3⟩ ⟨2, 0, 3⟩ PTree.leaf PTree.leaf

/-- Status structure after the event (0, 2). -/
def twoCrossS1 : PTree ℚ Line :=
  PTree.node (1 / 100) ⟨⟨0, 2⟩, ⟨2, 0⟩, 1⟩ PTree.leaf PTree.leaf

/-- Status structure after the event (2, 2). -/
def twoCrossS2 : PTree ℚ Line :=
  PTree.node 0 ⟨⟨0, 2⟩, ⟨2, 0⟩, 1⟩ PTree.leaf
    (PTree.node (199 / 100) ⟨⟨2, 2⟩, ⟨0, 0⟩, 0⟩ PTree.leaf PTree.leaf)

/-- Status structure after the event (1, 1). -/
def twoCrossS3 : PTree ℚ Line :=
  PTree.node (99 / 100) ⟨⟨2, 2⟩, ⟨0, 0⟩, 0⟩ PTree.leaf
    (PTree.node (101 / 100) ⟨⟨0, 2⟩, ⟨2, 0⟩, 1⟩ PTree.leaf PTree.leaf)

/-- Status structure after the event (0, 0). -/
def twoCrossS4 : PTree ℚ Line :=
  PTree.node 2 ⟨⟨0, 2⟩, ⟨2, 0⟩, 1⟩ PTree.leaf PTree.leaf

/-- The single intersection record of the crossing scenario. -/
def twoCrossRec : EPoint × List Line :=
  (⟨1, 1, 4⟩, [⟨⟨2, 2⟩, ⟨0, 0⟩, 0⟩, ⟨⟨0, 2⟩, ⟨2, 0⟩, 1⟩])

set_option maxHeartbeats 3000000 in
theorem twoCross_handle1 :
    handle_event_points twoCrossSegs ⟨0, 2, 1⟩ PTree.leaf twoCrossQ1 4 [] =
      Except.ok (twoCrossS1, twoCrossQ1, 4, []) := by
  norm_num [handle_event_points, twoCrossSegs, twoCrossQ1, twoCrossS1,
    classify, neighborStep, find_new_event, line_intersection, lies_on_segment, isclose,
    calculate_line_status_key, calculate_line_status, sort_by_sweepline_order,
    sbsSort, sbsInsert, statusRemovePair, statusInsertList,
    statusFindNeighbors, statusFindLeftNeighborByPair,
    statusFindRightNeighborByPair, scanUpper, scanContains,
    compare_events, event_equals, pointIs, lineIs, rat_ne,
    default_comparator, default_equals, Pt.compare,
    PTree.avl_insert, PTree.insert, PTree.avl_insert_list,
    PTree.pop_lowest, PTree.pop_all, PTree.pop_all_go, PTree.size,
    PTree.avl_remove_pair, PTree.remove_pair,
    PTree.remove, PTree.matchedRemoval, PTree.popRightmost, PTree.popLeftmost,
    PTree.balanceStep, PTree.check_balance, PTree.check_height,
    PTree.height_left, PTree.height_right, PTree.simple_rot_right,
    PTree.simple_rot_left, PTree.avl_is_in, PTree.is_in,
    PTree.avl_find_neighbors, PTree.find_neighbors,
    PTree.avl_find_left_neighbor_by_pair,
    PTree.avl_find_right_neighbor_by_pair,
    PTree.find_left_neighbor, PTree.find_right_neighbor,
    PTree.find_left_neighbor_by_pair, PTree.find_right_neighbor_by_pair,
    PTree.find_rightmost, PTree.find_leftmost, PTree.rootKey?, List.foldl]

set_option maxHeartbeats 3000000 in
theorem twoCross_handle2 :
    handle_event_points twoCrossSegs ⟨2, 2, 2⟩ twoCrossS1 twoCrossQ2 4 [] =
      Except.ok (twoCrossS2, twoCrossQ2i, 5, []) := by
  norm_num [handle_event_points, twoCrossSegs, twoCrossQ2, twoCrossQ2i,
    twoCrossS1, twoCrossS2,
    classify, neighborStep, find_new_event, line_intersection, lies_on_segment, isclose,
    calculate_line_status_key, calculate_line_status, sort_by_sweepline_order,
    sbsSort, sbsInsert, statusRemovePair, statusInsertList,
    statusFindNeighbors, statusFindLeftNeighborByPair,
    statusFindRightNeighborByPair, scanUpper, scanContains,
    compare_events, event_equals, pointIs, lineIs, rat_ne,
    default_comparator, default_equals, Pt.compare,
    PTree.avl_insert, PTree.insert, PTree.avl_insert_list,
    PTree.pop_lowest, PTree.pop_all, PTree.pop_all_go, PTree.size,
    PTree.avl_remove_pair, PTree.remove_pair,
    PTree.remove, PTree.matchedRemoval, PTree.popRightmost, PTree.popLeftmost,
    PTree.balanceStep, PTree.check_balance, PTree.check_height,
    PTree.height_left, PTree.height_right, PTree.simple_rot_right,
    PTree.simple_rot_left, PTree.avl_is_in, PTree.is_in,
    PTree.avl_find_neighbors, PTree.find_neighbors,
    PTree.avl_find_left_neighbor_by_pair,
    PTree.avl_find_right_neighbor_by_pair,
    PTree.find_left_neighbor, PTree.find_right_neighbor,
    PTree.find_left_neighbor_by_pair, PTree.find_right_neighbor_by_pair,
    PTree.find_rightmost, PTree.find_leftmost, PTree.rootKey?, List.foldl]

set_option maxHeartbeats 3000000 in
theorem twoCross_handle3 :
    handle_event_points twoCrossSegs ⟨1, 1, 4⟩ twoCrossS2 twoCrossQ2 5 [] =
      Except.ok (twoCrossS3, twoCrossQ2, 5, [twoCrossRec]) := by
  norm_num [handle_event_points, twoCrossSegs, twoCrossQ2, twoCrossS2,
    twoCrossS3, twoCrossRec,
    classify, neighborStep, find_new_event, line_intersection, lies_on_segment, isclose,
    calculate_line_status_key, calculate_line_status, sort_by_sweepline_order,
    sbsSort, sbsInsert, statusRemovePair, statusInsertList,
    statusFindNeighbors, statusFindLeftNeighborByPair,
    statusFindRightNeighborByPair, scanUpper, scanContains,
    compare_events, event_equals, pointIs, lineIs, rat_ne,
    default_comparator, default_equals, Pt.compare,
    PTree.avl_insert, PTree.insert, PTree.avl_insert_list,
    PTree.pop_lowest, PTree.pop_all, PTree.pop_all_go, PTree.size,
    PTree.avl_remove_pair, PTree.remove_pair,
    PTree.remove, PTree.matchedRemoval, PTree.popRightmost, PTree.popLeftmost,
    PTree.balanceStep, PTree.check_balance, PTree.check_height,
    PTree.height_left, PTree.height_right, PTree.simple_rot_right,
    PTree.simple_rot_left, PTree.avl_is_in, PTree.is_in,
    PTree.avl_find_neighbors, PTree.find_neighbors,
    PTree.avl_find_left_neighbor_by_pair,
    PTree.avl_find_right_neighbor_by_pair,
    PTree.find_left_neighbor, PTree.find_right_neighbor,
    PTree.find_left_neighbor_by_pair, PTree.find_right_neighbor_by_pair,
    PTree.find_rightmost, PTree.find_leftmost, PTree.rootKey?, List.foldl]

set_option maxHeartbeats 3000000 in
theorem twoCross_handle4 :
    handle_event_points twoCrossSegs ⟨0, 0, 0⟩ twoCrossS3 twoCrossQ4 5
      [twoCrossRec] = Except.ok (twoCrossS4, twoCrossQ4, 5, [twoCrossRec]) := by
  norm_num [handle_event_points, twoCrossSegs, twoCrossQ4, twoCrossS3,
    twoCrossS4, twoCrossRec,
    classify, neighborStep, find_new_event, line_intersection, lies_on_segment, isclose,
    calculate_line_status_key, calculate_line_status, sort_by_sweepline_order,
    sbsSort, sbsInsert, statusRemovePair, statusInsertList,
    statusFindNeighbors, statusFindLeftNeighborByPair,
    statusFindRightNeighborByPair, scanUpper, scanContains,
    compare_events, event_equals, pointIs, lineIs, rat_ne,
    default_comparator, default_equals, Pt.compare,
    PTree.avl_insert, PTree.insert, PTree.avl_insert_list,
    PTree.pop_lowest, PTree.pop_all, PTree.pop_all_go, PTree.size,
    PTree.avl_remove_pair, PTree.remove_pair,
    PTree.remove, PTree.matchedRemoval, PTree.popRightmost, PTree.popLeftmost,
    PTree.balanceStep, PTree.check_balance, PTree.check_height,
    PTree.height_left, PTree.height_right, PTree.simple_rot_right,
    PTree.simple_rot_left, PTree.avl_is_in, PTree.is_in,
    PTree.avl_find_neighbors, PTree.find_neighbors,
    PTree.avl_find_left_neighbor_by_pair,
    PTree.avl_find_right_neighbor_by_pair,
    PTree.find_left_neighbor, PTree.find_right_neighbor,
    PTree.find_left_neighbor_by_pair, PTree.find_right_neighbor_by_pair,
    PTree.find_rightmost, PTree.find_leftmost, PTree.rootKey?, List.foldl]

set_option maxHeartbeats 3000000 in
theorem twoCross_handle5 :
    handle_event_points twoCrossSegs ⟨2, 0, 3⟩ twoCrossS4 PTree.leaf 5
      [twoCrossRec] = Except.ok (PTree.leaf, PTree.leaf, 5, [twoCrossRec]) := by
  norm_num [handle_event_points, twoCrossSegs, twoCrossS4, twoCrossRec,
    classify, neighborStep, find_new_event, line_intersection, lies_on_segment, isclose,
    calculate_line_status_key, calculate_line_status, sort_by_sweepline_order,
    sbsSort, sbsInsert, statusRemovePair, statusInsertList,
    statusFindNeighbors, statusFindLeftNeighborByPair,
    statusFindRightNeighborByPair, scanUpper, scanContains,
    compare_events, event_equals, pointIs, lineIs, rat_ne,
    default_comparator, default_equals, Pt.compare,
    PTree.avl_insert, PTree.insert, PTree.avl_insert_list,
    PTree.pop_lowest, PTree.pop_all, PTree.pop_all_go, PTree.size,
    PTree.avl_remove_pair, PTree.remove_pair,
    PTree.remove, PTree.matchedRemoval, PTree.popRightmost, PTree.popLeftmost,
    PTree.balanceStep, PTree.check_balance, PTree.check_height,
    PTree.height_left, PTree.height_right, PTree.simple_rot_right,
    PTree.simple_rot_left, PTree.avl_is_in, PTree.is_in,
    PTree.avl_find_neighbors, PTree.find_neighbors,
    PTree.avl_find_left_neighbor_by_pair,
    PTree.avl_find_right_neighbor_by_pair,
    PTree.find_left_neighbor, PTree.find_right_neighbor,
    PTree.find_left_neighbor_by_pair, PTree.find_right_neighbor_by_pair,
    PTree.find_rightmost, PTree.find_leftmost, PTree.rootKey?, List.foldl]

/-- The full run on the two crossing segments, assembled event by event. -/
theorem search_two_crossing_eval :
    search_intersections [((0, 0), (2, 2)), ((0, 2), (2, 0))] 32 =
      Except.ok [twoCrossRec] := by
  have e0 : search_intersections [((0, 0), (2, 2)), ((0, 2), (2, 0))] 32 =
      loopFI twoCrossSegs 32 PTree.leaf twoCrossQ0 4 [] := rfl
  rw [e0]
  show loopFI twoCrossSegs (31 + 1) PTree.leaf twoCrossQ0 4 [] = _
  rw [loopFI_step 31 twoCrossQ0 rfl twoCross_handle1]
  show loopFI twoCrossSegs (30 + 1) twoCrossS1 twoCrossQ1 4 [] = _
  rw [loopFI_step 30 twoCrossQ1 rfl twoCross_handle2]
  show loopFI twoCrossSegs (29 + 1) twoCrossS2 twoCrossQ2i 5 [] = _
  rw [loopFI_step 29 twoCrossQ2i rfl twoCross_handle3]
  show loopFI twoCrossSegs (28 + 1) twoCrossS3 twoCrossQ2 5 [twoCrossRec] = _
  rw [loopFI_step 28 twoCrossQ2 rfl twoCross_handle4]
  show loopFI twoCrossSegs (27 + 1) twoCrossS4 twoCrossQ4 5 [twoCrossRec] = _
  rw [loopFI_step 27 twoCrossQ4 rfl twoCross_handle5]
  show loopFI twoCrossSegs (26 + 1) PTree.leaf PTree.leaf 5 [twoCrossRec] = _
  exact loopFI_done 26 PTree.leaf rfl

/-- C1: on the input `[((0,0),(2,2)), ((0,2),(2,0))]`, `search_intersections`
returns exactly one record; its point has coordinates (1.0, 1.0) and its
segment list contains both input segments (the `Line` objects built from
inputs 0 and 1). -/
theorem c1_two_crossing_segments :
    ∃ p : EPoint, ∃ segs : List Line,
      search_intersections [((0, 0), (2, 2)), ((0, 2), (2, 0))] 32 =
        Except.ok [(p, segs)] ∧
      p.x = 1 ∧ p.y = 1 ∧
      mkLine ⟨0, 0⟩ ⟨2, 2⟩ 0 ∈ segs ∧ mkLine ⟨0, 2⟩ ⟨2, 0⟩ 1 ∈ segs := by
  refine ⟨⟨1, 1, 4⟩,
    [⟨⟨2, 2⟩, ⟨0, 0⟩, 0⟩, ⟨⟨0, 2⟩, ⟨2, 0⟩, 1⟩], ?_, rfl, rfl, ?_, ?_⟩
  · exact search_two_crossing_eval
  · simp [mkLine]
  · simp [mkLine]

/-- C3 (code bug): for the parallel pair `((0,0),(0,2))`, `((1,0),(1,2))` the
linear system is singular; `line_intersection` returns the tuple
`(None, None)`, which is not `None`, so `find_new_event` evaluates
`None < point.y` and raises `TypeError` instead of completing with the event
queue unchanged. -/
theorem c3_parallel_find_new_event_raises :
    line_intersection (mkLine ⟨0, 0⟩ ⟨0, 2⟩ 0) (mkLine ⟨1, 0⟩ ⟨1, 2⟩ 1) =
      LIRes.nonePair ∧
    find_new_event PTree.leaf 0 (mkLine ⟨0, 0⟩ ⟨0, 2⟩ 0)
      (mkLine ⟨1, 0⟩ ⟨1, 2⟩ 1) ⟨5, 5, 99⟩ = Except.error Err.typeError := by
  constructor
  · norm_num [line_intersection, mkLine]
  · norm_num [find_new_event, line_intersection, mkLine]

/-- C4 (code bug): the tree built from inserts (2,b),(1,a),(3,c) contains the
node (3, c), yet `remove_pair(3, c)` returns the tree unchanged — the descent
comparison `comparator(self.key, key)` sends the search into the left subtree
although the key 3 is to the right, so the matching node is never found and
nothing is removed. -/
theorem c4_remove_pair_misses :
    (3, 30) ∈ treeC4.pairs ∧ natRemovePair treeC4 3 30 = Except.ok treeC4 :=
  ⟨by decide, by rfl⟩

/-- C5 (code bug): on the empty tree, `AvlTree.remove` dereferences
`self.root.remove` with `root = None` and raises `AttributeError` instead of
silently doing nothing. -/
theorem c5_remove_empty_raises :
    natRemove PTree.leaf 0 = Except.error Err.attributeError := rfl

/-- C6 (code bug): inserting the pair (1.0, v) into a tree that already stores
(1.0, v) with the *same* object v duplicates the node instead of being a
no-op: the identity check sits inside the `comparator(new, cur) = true`
branch, which an equal key never enters, so the duplicate is routed right and
attached. -/
theorem c6_insert_identical_duplicates :
    treeOne.pairs = [(1, 10)] ∧
    (natInsert treeOne (1, 10)).pairs = [(1, 10), (1, 10)] := ⟨rfl, rfl⟩

/-- C7 (code bug): `find_neighbors` on a tree storing only (1.0, v), queried
with the absent key 2.0, returns `(None, None)` although the in-order
predecessor of the position where 2.0 would be inserted is the node with
value v — the neighbour search only ever reports a node when the key is
found per `equals`, and falls through to `None` on an absent key. -/
theorem c7_find_neighbors_absent_returns_none :
    treeOne.pairs = [(1, 10)] ∧
    PTree.avl_find_neighbors default_comparator default_equals treeOne 2 =
      (none, none) := ⟨rfl, rfl⟩

/-- C9 (code bug): on the tree from inserts (2,b),(1,a),(3,c),
`remove_pair(3, c)` removes nothing (C4) and the subsequent `insert (3, c)`
adds a second node, so the stored multiset gains a duplicate of (3, c) instead
of being restored. -/
theorem c9_remove_insert_changes_multiset :
    ∃ t' : PTree ℚ Nat, natRemovePair treeC4 3 30 = Except.ok t' ∧
      treeC4.pairs = [(1, 10), (2, 20), (3, 30)] ∧
      (natInsert t' (3, 30)).pairs = [(1, 10), (2, 20), (3, 30), (3, 30)] :=
  ⟨treeC4, rfl, rfl, rfl⟩

/-- C8: `calculate_line_status_key` returns the segment's x for a vertical
segment, `upper.x` for a horizontal one, and otherwise
`upper.x + (y_sweep − upper.y)·(upper.x − lower.x)/(upper.y − lower.y)`. -/
theorem c8_status_key_formula (line : Line) (sweep : ℚ) :
    (line.upper.x = line.lower.x → calculate_line_status_key sweep line = line.upper.x) ∧
    (line.upper.y = line.lower.y → calculate_line_status_key sweep line = line.upper.x) ∧
    (line.upper.x ≠ line.lower.x → line.upper.y ≠ line.lower.y →
      calculate_line_status_key sweep line =
        line.upper.x + (sweep - line.upper.y) * (line.upper.x - line.lower.x) /
          (line.upper.y - line.lower.y)) := by
  refine ⟨fun h => ?_, fun h => ?_, fun hx hy => ?_⟩
  · simp [calculate_line_status_key, h.symm]
  · by_cases hx : line.lower.x = line.upper.x
    · simp [calculate_line_status_key, hx]
    · simp [calculate_line_status_key, hx, h.symm]
  · have hx' : line.lower.x ≠ line.upper.x := fun hc => hx hc.symm
    have hy' : line.lower.y ≠ line.upper.y := fun hc => hy hc.symm
    have hdx : line.upper.x - line.lower.x ≠ 0 := sub_ne_zero.mpr hx
    have hdy : line.upper.y - line.lower.y ≠ 0 := sub_ne_zero.mpr hy
    simp only [calculate_line_status_key, if_neg hx', if_neg hy']
    have hm : (line.upper.y - line.lower.y) / (line.upper.x - line.lower.x) ≠ 0 :=
      div_ne_zero hdy hdx
    field_simp
    ring

/-- Witness for C8 at the concrete segment ((0,0),(2,2)) and sweep 5. -/
theorem c8_status_key_formula_witness :
    calculate_line_status_key 5 (mkLine ⟨0, 0⟩ ⟨2, 2⟩ 0) =
      (mkLine ⟨0, 0⟩ ⟨2, 2⟩ 0).upper.x +
        (5 - (mkLine ⟨0, 0⟩ ⟨2, 2⟩ 0).upper.y) *
          ((mkLine ⟨0, 0⟩ ⟨2, 2⟩ 0).upper.x - (mkLine ⟨0, 0⟩ ⟨2, 2⟩ 0).lower.x) /
          ((mkLine ⟨0, 0⟩ ⟨2, 2⟩ 0).upper.y - (mkLine ⟨0, 0⟩ ⟨2, 2⟩ 0).lower.y) :=
  (c8_status_key_formula (mkLine ⟨0, 0⟩ ⟨2, 2⟩ 0) 5).2.2 (by decide) (by decide)

/-- C10: a non-empty `elements` list handed to the `AvlTree` constructor, or
to `insert_list` on an empty tree, is left by the call with exactly its first
element removed. -/
theorem c10_ctor_pops_first {K V : Type} (cmp keq : K → K → Bool)
    (vIs : V → V → Bool) (es : List (K × V)) (h : es ≠ []) :
    (PTree.avl_init cmp keq vIs es).2 = es.tail ∧
    (PTree.avl_insert_list cmp keq vIs PTree.leaf es).2 = es.tail := by
  match es with
  | [] => exact absurd rfl h
  | (k, v) :: rest => exact ⟨rfl, rfl⟩

/-- Witness for C10 at a concrete two-element list. -/
theorem c10_ctor_pops_first_witness :
    (PTree.avl_init default_comparator default_equals natIs
      [((1 : ℚ), (5 : Nat)), (2, 6)]).2 = [(2, 6)] ∧
    (PTree.avl_insert_list default_comparator default_equals natIs PTree.leaf
      [((1 : ℚ), (5 : Nat)), (2, 6)]).2 = [(2, 6)] :=
  c10_ctor_pops_first default_comparator default_equals natIs
    [((1 : ℚ), (5 : Nat)), (2, 6)] (by decide)

/-! ## C2: the emitted records are monotone in sweep order

The event queue is the tree instantiated at `compare_events`/`event_equals`.
The facts below say that `compare_events` is a strict total order on
coordinate-distinct points and that `event_equals` is coordinate equality;
then the queue operations used by the driver (seeding inserts, `pop_lowest`,
`is_in`, the `find_new_event` insert) are shown to preserve a search-tree
invariant, from which the drain order is monotone. -/

theorem compare_events_iff {p q : EPoint} :
    compare_events p q = true ↔ q.y < p.y ∨ (p.y = q.y ∧ p.x < q.x) := by
  by_cases h : p.y = q.y
  · simp only [compare_events, if_pos h, decide_eq_true_eq]
    constructor
    · exact fun hx => Or.inr ⟨h, hx⟩
    · rintro (hy | ⟨-, hx⟩)
      · exact absurd h (ne_of_gt hy)
      · exact hx
  · simp only [compare_events, if_neg h, gt_iff_lt, decide_eq_true_eq]
    constructor
    · exact fun hy => Or.inl hy
    · rintro (hy | ⟨hy, -⟩)
      · exact hy
      · exact absurd hy h

theorem event_equals_iff {p q : EPoint} :
    event_equals p q = true ↔ p.x = q.x ∧ p.y = q.y := by
  simp [event_equals]

theorem ee_symm (p q : EPoint) : event_equals p q = event_equals q p := by
  rw [Bool.eq_iff_iff, event_equals_iff, event_equals_iff]
  exact ⟨fun h => ⟨h.1.symm, h.2.symm⟩, fun h => ⟨h.1.symm, h.2.symm⟩⟩

theorem ce_ee_false {p q : EPoint} (h : compare_events p q = true) :
    event_equals p q = false := by
  rcases compare_events_iff.mp h with hy | ⟨-, hx⟩
  · rw [← Bool.not_eq_true, event_equals_iff]
    rintro ⟨-, h2⟩
    exact absurd h2 (ne_of_gt hy)
  · rw [← Bool.not_eq_true, event_equals_iff]
    rintro ⟨h1, -⟩
    exact absurd h1 (ne_of_lt hx)

theorem ce_irrefl (p : EPoint) : compare_events p p = false := by
  rw [← Bool.not_eq_true, compare_events_iff]
  rintro (hy | ⟨-, hx⟩)
  · exact lt_irrefl _ hy
  · exact lt_irrefl _ hx

theorem ce_asymm {p q : EPoint} (h : compare_events p q = true) :
    compare_events q p = false := by
  rw [← Bool.not_eq_true, compare_events_iff]
  rcases compare_events_iff.mp h with hy | ⟨hy, hx⟩ <;>
    rintro (hy2 | ⟨hy2, hx2⟩) <;> linarith

theorem ce_trans {p q r : EPoint} (h1 : compare_events p q = true)
    (h2 : compare_events q r = true) : compare_events p r = true := by
  rw [compare_events_iff]
  rcases compare_events_iff.mp h1 with hy1 | ⟨hy1, hx1⟩ <;>
    rcases compare_events_iff.mp h2 with hy2 | ⟨hy2, hx2⟩
  · exact Or.inl (lt_trans hy2 hy1)
  · exact Or.inl (hy2 ▸ hy1)
  · exact Or.inl (hy1 ▸ hy2)
  · exact Or.inr ⟨hy1.trans hy2, lt_trans hx1 hx2⟩

theorem ce_total {p q : EPoint} (h1 : compare_events p q = false)
    (h2 : event_equals p q = false) : compare_events q p = true := by
  rw [compare_events_iff]
  rw [← Bool.not_eq_true, compare_events_iff] at h1
  push_neg at h1
  rw [← Bool.not_eq_true, event_equals_iff] at h2
  push_neg at h2
  rcases lt_trichotomy q.y p.y with hy | hy | hy
  · exact absurd hy (not_lt_of_ge h1.1)
  · rcases lt_trichotomy p.x q.x with hx | hx | hx
    · exact absurd hx (not_lt_of_ge (h1.2 hy.symm))
    · exact absurd hy.symm (h2 hx)
    · exact Or.inr ⟨hy, hx⟩
  · exact Or.inl hy

theorem ce_congr_left {a b c : EPoint} (h : event_equals a b = true) :
    compare_events a c = compare_events b c := by
  obtain ⟨h1, h2⟩ := event_equals_iff.mp h
  simp [compare_events, h1, h2]

theorem ce_congr_right {a b c : EPoint} (h : event_equals a b = true) :
    compare_events c a = compare_events c b := by
  obtain ⟨h1, h2⟩ := event_equals_iff.mp h
  simp [compare_events, h1, h2]

theorem ee_congr_left {a b c : EPoint} (h : event_equals a b = true) :
    event_equals a c = event_equals b c := by
  obtain ⟨h1, h2⟩ := event_equals_iff.mp h
  simp [event_equals, h1, h2]

/-- The event-queue instance of `TreeObject.insert`. -/
def qins (t : PTree EPoint EPoint) (k v : EPoint) : PTree EPoint EPoint :=
  PTree.insert compare_events event_equals pointIs t k v

theorem avl_insert_eq_qins (t : PTree EPoint EPoint) (el : EPoint × EPoint) :
    PTree.avl_insert compare_events event_equals pointIs t el =
      qins t el.1 el.2 := by
  cases t <;> rfl

theorem keys_node (k v : EPoint) (l r : PTree EPoint EPoint) :
    PTree.keys (PTree.node k v l r) = PTree.keys l ++ k :: PTree.keys r := by
  simp [PTree.keys, PTree.pairs]

theorem mem_pairs_left {K V : Type} {pr : K × V} {k : K} {v : V}
    {l r : PTree K V} (h : pr ∈ PTree.pairs l) :
    pr ∈ PTree.pairs (PTree.node k v l r) := by
  simp only [PTree.pairs, List.mem_append]
  exact Or.inl h

theorem mem_pairs_root {K V : Type} (k : K) (v : V) (l r : PTree K V) :
    (k, v) ∈ PTree.pairs (PTree.node k v l r) := by
  simp [PTree.pairs]

theorem mem_pairs_right {K V : Type} {pr : K × V} {k : K} {v : V}
    {l r : PTree K V} (h : pr ∈ PTree.pairs r) :
    pr ∈ PTree.pairs (PTree.node k v l r) := by
  simp only [PTree.pairs, List.mem_append, List.mem_cons]
  exact Or.inr (Or.inr h)

/-- Search-tree invariant the event queue maintains: all keys in a left
subtree sort strictly before the node, all keys in a right subtree do not. -/
inductive QBST : PTree EPoint EPoint → Prop where
  | leaf : QBST PTree.leaf
  | node {k v : EPoint} {l r : PTree EPoint EPoint} :
      (∀ x ∈ PTree.keys l, compare_events x k = true) →
      (∀ x ∈ PTree.keys r, compare_events x k = false) →
      QBST l → QBST r → QBST (PTree.node k v l r)

/-- No two stored keys are coordinate-equal. -/
def QND (t : PTree EPoint EPoint) : Prop :=
  (PTree.keys t).Pairwise (fun a b => event_equals a b = false)

/-- Every stored pair has key = value (the queue stores each point as both). -/
def QKV (t : PTree EPoint EPoint) : Prop :=
  ∀ pr ∈ PTree.pairs t, pr.1 = pr.2

theorem pairs_rot_right (t : PTree EPoint EPoint) :
    PTree.pairs (PTree.simple_rot_right t) = PTree.pairs t := by
  match t with
  | PTree.leaf => rfl
  | PTree.node k v PTree.leaf r => rfl
  | PTree.node k v (PTree.node lk lv ll lr) r =>
    simp [PTree.simple_rot_right, PTree.pairs]

theorem pairs_rot_left (t : PTree EPoint EPoint) :
    PTree.pairs (PTree.simple_rot_left t) = PTree.pairs t := by
  match t with
  | PTree.leaf => rfl
  | PTree.node k v l PTree.leaf => rfl
  | PTree.node k v l (PTree.node rk rv rl rr) =>
    simp [PTree.simple_rot_left, PTree.pairs]

theorem pairs_balanceStep (t : PTree EPoint EPoint) :
    PTree.pairs (PTree.balanceStep t) = PTree.pairs t := by
  simp only [PTree.balanceStep]
  split_ifs <;> simp [pairs_rot_right, pairs_rot_left]

theorem keys_of_pairs_eq {t t' : PTree EPoint EPoint}
    (h : PTree.pairs t = PTree.pairs t') : PTree.keys t = PTree.keys t' := by
  simp [PTree.keys, h]

theorem qbst_rot_right {t : PTree EPoint EPoint} (h : QBST t) :
    QBST (PTree.simple_rot_right t) := by
  match t with
  | PTree.leaf => exact h
  | PTree.node k v PTree.leaf r => exact h
  | PTree.node k v (PTree.node lk lv ll lr) r =>
    cases h with
    | node hl hr hbl hbr =>
    cases hbl with
    | node hll hlr hbll hblr =>
    have hlk : compare_events lk k = true := by
      refine hl lk ?_
      rw [keys_node]
      exact List.mem_append_right _ (List.mem_cons_self _ _)
    refine QBST.node hll ?_ hbll (QBST.node ?_ ?_ hblr hbr)
    · intro x hx
      rw [keys_node] at hx
      rcases List.mem_append.mp hx with hx | hx
      · refine hlr x hx
    -- x is the old root key or in the old right subtree
      · rcases List.mem_cons.mp hx with rfl | hx
        · exact ce_asymm hlk
        · have h1 : compare_events x k = false := hr x hx
          rw [← Bool.not_eq_true]
          intro h2
          rw [ce_trans h2 hlk] at h1
          cases h1
    · intro x hx
      refine hl x ?_
      rw [keys_node]
      exact List.mem_append_right _ (List.mem_cons_of_mem _ hx)
    · exact hr

theorem qbst_rot_left {t : PTree EPoint EPoint} (h : QBST t) (hnd : QND t) :
    QBST (PTree.simple_rot_left t) := by
  match t with
  | PTree.leaf => exact h
  | PTree.node k v l PTree.leaf => exact h
  | PTree.node k v l (PTree.node rk rv rl rr) =>
    cases h with
    | node hl hr hbl hbr =>
    cases hbr with
    | node hrl hrr hbrl hbrr =>
    have hrk : compare_events rk k = false := by
      refine hr rk ?_
      rw [keys_node]
      exact List.mem_append_right _ (List.mem_cons_self _ _)
    have hknk : event_equals k rk = false := by
      unfold QND at hnd
      rw [keys_node] at hnd
      have h2 := (List.pairwise_append.mp hnd).2.1
      exact (List.pairwise_cons.mp h2).1 rk (by
        rw [keys_node]
        exact List.mem_append_right _ (List.mem_cons_self _ _))
    have hkrk : compare_events k rk = true := by
      refine ce_total hrk ?_
      rw [ee_symm]
      exact hknk
    refine QBST.node ?_ hrr (QBST.node hl ?_ hbl hbrl) hbrr
    · intro x hx
      rw [keys_node] at hx
      rcases List.mem_append.mp hx with hx | hx
      · exact ce_trans (hl x hx) hkrk
      · rcases List.mem_cons.mp hx with rfl | hx
        · exact hkrk
        · exact hrl x hx
    · intro x hx
      refine hr x ?_
      rw [keys_node]
      exact List.mem_append_left _ hx

theorem ee_false_symmetric :
    Symmetric (fun a b : EPoint => event_equals a b = false) := by
  intro a b h
  rw [ee_symm]
  exact h

theorem keys_balanceStep (t : PTree EPoint EPoint) :
    PTree.keys (PTree.balanceStep t) = PTree.keys t :=
  keys_of_pairs_eq (pairs_balanceStep t)

theorem qbst_balanceStep {t : PTree EPoint EPoint} (h : QBST t) (hnd : QND t) :
    QBST (PTree.balanceStep t) := by
  simp only [PTree.balanceStep]
  split_ifs
  · exact qbst_rot_right h
  · exact qbst_rot_left h hnd
  · exact h

theorem qnd_balanceStep {t : PTree EPoint EPoint} (hnd : QND t) :
    QND (PTree.balanceStep t) := by
  unfold QND
  rw [keys_balanceStep]
  exact hnd

theorem qnd_left {k v : EPoint} {l r : PTree EPoint EPoint}
    (h : QND (PTree.node k v l r)) : QND l := by
  unfold QND at h ⊢
  rw [keys_node] at h
  exact (List.pairwise_append.mp h).1

theorem qnd_right {k v : EPoint} {l r : PTree EPoint EPoint}
    (h : QND (PTree.node k v l r)) : QND r := by
  unfold QND at h ⊢
  rw [keys_node] at h
  exact (List.pairwise_cons.mp (List.pairwise_append.mp h).2.1).2

theorem qins_pairs_mem (t : PTree EPoint EPoint) (k v : EPoint) :
    ∀ pr ∈ PTree.pairs (qins t k v), pr = (k, v) ∨ pr ∈ PTree.pairs t := by
  induction t with
  | leaf =>
    intro pr hpr
    simp only [qins, PTree.insert, PTree.pairs, List.mem_singleton,
      List.append_nil, List.nil_append] at hpr
    exact Or.inl hpr
  | node k0 v0 l r ihl ihr =>
    intro pr hpr
    by_cases hc : compare_events k k0 = true
    · have he : event_equals k k0 = false := ce_ee_false hc
      cases l with
      | leaf =>
        simp only [qins, PTree.insert, hc, he, if_true, Bool.false_eq_true,
          if_false] at hpr
        rw [pairs_balanceStep] at hpr
        simp only [PTree.pairs, List.nil_append, List.mem_append,
          List.mem_cons, List.mem_singleton, List.not_mem_nil] at hpr ⊢
        tauto
      | node lk lv ll lr =>
        simp only [qins, PTree.insert, hc, he, if_true, Bool.false_eq_true,
          if_false] at hpr
        rw [pairs_balanceStep] at hpr
        simp only [PTree.pairs] at hpr
        rcases List.mem_append.mp hpr with h1 | h1
        · rcases ihl pr h1 with h2 | h2
          · exact Or.inl h2
          · exact Or.inr (mem_pairs_left h2)
        · refine Or.inr ?_
          simp only [PTree.pairs, List.mem_append]
          exact Or.inr h1
    · rw [Bool.not_eq_true] at hc
      cases r with
      | leaf =>
        simp only [qins, PTree.insert, hc, Bool.false_eq_true, if_false] at hpr
        rw [pairs_balanceStep] at hpr
        simp only [PTree.pairs, List.mem_append, List.mem_cons,
          List.mem_singleton, List.not_mem_nil] at hpr ⊢
        tauto
      | node rk rv rl rr =>
        simp only [qins, PTree.insert, hc, Bool.false_eq_true, if_false] at hpr
        rw [pairs_balanceStep] at hpr
        simp only [PTree.pairs] at hpr
        rcases List.mem_append.mp hpr with h1 | h1
        · exact Or.inr (mem_pairs_left h1)
        · rcases List.mem_cons.mp h1 with h2 | h2
          · refine Or.inr ?_
            simp only [PTree.pairs, List.mem_append, List.mem_cons]
            exact Or.inr (Or.inl h2)
          · rcases ihr pr h2 with h3 | h3
            · exact Or.inl h3
            · exact Or.inr (mem_pairs_right h3)

theorem qins_keys_mem (t : PTree EPoint EPoint) (k v : EPoint) :
    ∀ x ∈ PTree.keys (qins t k v), x = k ∨ x ∈ PTree.keys t := by
  intro x hx
  simp only [PTree.keys, List.mem_map] at hx ⊢
  obtain ⟨pr, hpr, rfl⟩ := hx
  rcases qins_pairs_mem t k v pr hpr with h | h
  · exact Or.inl (by rw [h])
  · exact Or.inr ⟨pr, h, rfl⟩

theorem qnd_of_balanceStep {t : PTree EPoint EPoint}
    (h : QND (PTree.balanceStep t)) : QND t := by
  unfold QND at h
  rw [keys_balanceStep] at h
  exact h

theorem qins_unfold_left_leaf {k v k0 v0 : EPoint} {r : PTree EPoint EPoint}
    (hc : compare_events k k0 = true) (he : event_equals k k0 = false) :
    qins (PTree.node k0 v0 PTree.leaf r) k v =
      PTree.balanceStep (PTree.node k0 v0
        (PTree.node k v PTree.leaf PTree.leaf) r) := by
  simp [qins, PTree.insert, hc, he]

theorem qins_unfold_left_node {k v k0 v0 lk lv : EPoint}
    {ll lr r : PTree EPoint EPoint}
    (hc : compare_events k k0 = true) (he : event_equals k k0 = false) :
    qins (PTree.node k0 v0 (PTree.node lk lv ll lr) r) k v =
      PTree.balanceStep (PTree.node k0 v0
        (qins (PTree.node lk lv ll lr) k v) r) := by
  simp [qins, PTree.insert, hc, he]

theorem qins_unfold_right_leaf {k v k0 v0 : EPoint} {l : PTree EPoint EPoint}
    (hc : compare_events k k0 = false) :
    qins (PTree.node k0 v0 l PTree.leaf) k v =
      PTree.balanceStep (PTree.node k0 v0 l
        (PTree.node k v PTree.leaf PTree.leaf)) := by
  simp [qins, PTree.insert, hc]

theorem qins_unfold_right_node {k v k0 v0 rk rv : EPoint}
    {l rl rr : PTree EPoint EPoint} (hc : compare_events k k0 = false) :
    qins (PTree.node k0 v0 l (PTree.node rk rv rl rr)) k v =
      PTree.balanceStep (PTree.node k0 v0 l
        (qins (PTree.node rk rv rl rr) k v)) := by
  simp [qins, PTree.insert, hc]

theorem qins_nd {t : PTree EPoint EPoint} {k v : EPoint} (hnd : QND t)
    (hfresh : ∀ x ∈ PTree.keys t, event_equals k x = false) :
    QND (qins t k v) := by
  induction t with
  | leaf =>
    unfold QND
    simp [qins, PTree.insert, PTree.keys, PTree.pairs]
  | node k0 v0 l r ihl ihr =>
    have hndt := hnd
    unfold QND at hndt
    rw [keys_node] at hndt
    have hk0 : k0 ∈ PTree.keys (PTree.node k0 v0 l r) := by
      rw [keys_node]
      exact List.mem_append_right _ (List.mem_cons_self _ _)
    by_cases hc : compare_events k k0 = true
    · have he : event_equals k k0 = false := ce_ee_false hc
      cases l with
      | leaf =>
        rw [qins_unfold_left_leaf hc he]
        refine qnd_balanceStep ?_
        unfold QND
        rw [keys_node, keys_node]
        rw [List.pairwise_append]
        refine ⟨by simp [PTree.keys, PTree.pairs], ?_, ?_⟩
        · simpa [PTree.keys, PTree.pairs] using hndt
        · intro a ha b hb
          have hak : a = k := by
            simpa [PTree.keys, PTree.pairs] using ha
          subst hak
          rcases List.mem_cons.mp hb with rfl | hb
          · exact hfresh b hk0
          · refine hfresh b ?_
            rw [keys_node]
            exact List.mem_append_right _ (List.mem_cons_of_mem _ hb)
      | node lk lv ll lr =>
        rw [qins_unfold_left_node hc he]
        refine qnd_balanceStep ?_
        unfold QND
        rw [keys_node]
        rw [List.pairwise_append]
        refine ⟨?_, (List.pairwise_append.mp hndt).2.1, ?_⟩
        · exact ihl (qnd_left hnd) (fun x hx => hfresh x (by
            rw [keys_node]
            exact List.mem_append_left _ hx))
        · intro a ha b hb
          rcases qins_keys_mem _ k v a ha with rfl | ha2
          · refine hfresh b ?_
            rw [keys_node]
            exact List.mem_append_right _ hb
          · exact (List.pairwise_append.mp hndt).2.2 a ha2 b hb
    · rw [Bool.not_eq_true] at hc
      cases r with
      | leaf =>
        rw [qins_unfold_right_leaf hc]
        refine qnd_balanceStep ?_
        unfold QND
        rw [keys_node, keys_node]
        rw [List.pairwise_append]
        refine ⟨(List.pairwise_append.mp hndt).1, ?_, ?_⟩
        · refine List.pairwise_cons.mpr ⟨?_, by simp [PTree.keys, PTree.pairs]⟩
          intro b hb
          have hbk : b = k := by
            simpa [PTree.keys, PTree.pairs] using hb
          subst hbk
          rw [ee_symm]
          exact hfresh k0 hk0
        · intro a ha b hb
          rcases List.mem_cons.mp hb with rfl | hb2
          · exact (List.pairwise_append.mp hndt).2.2 a ha b
              (List.mem_cons_self _ _)
          · have hbk : b = k := by
              simpa [PTree.keys, PTree.pairs] using hb2
            subst hbk
            rw [ee_symm]
            refine hfresh a ?_
            rw [keys_node]
            exact List.mem_append_left _ ha
      | node rk rv rl rr =>
        rw [qins_unfold_right_node hc]
        refine qnd_balanceStep ?_
        unfold QND
        rw [keys_node]
        rw [List.pairwise_append]
        refine ⟨(List.pairwise_append.mp hndt).1, ?_, ?_⟩
        · refine List.pairwise_cons.mpr ⟨?_, ?_⟩
          · intro b hb
            rcases qins_keys_mem _ k v b hb with rfl | hb2
            · rw [ee_symm]
              exact hfresh k0 hk0
            · exact (List.pairwise_cons.mp
                (List.pairwise_append.mp hndt).2.1).1 b hb2
          · exact ihr (qnd_right hnd) (fun x hx => hfresh x (by
              rw [keys_node]
              exact List.mem_append_right _ (List.mem_cons_of_mem _ hx)))
        · intro a ha b hb
          rcases List.mem_cons.mp hb with rfl | hb2
          · exact (List.pairwise_append.mp hndt).2.2 a ha b
              (List.mem_cons_self _ _)
          · rcases qins_keys_mem _ k v b hb2 with rfl | hb3
            · rw [ee_symm]
              refine hfresh a ?_
              rw [keys_node]
              exact List.mem_append_left _ ha
            · exact (List.pairwise_append.mp hndt).2.2 a ha b
                (List.mem_cons_of_mem _ hb3)

theorem qins_bst {t : PTree EPoint EPoint} {k v : EPoint} (hb : QBST t)
    (hnd : QND t) (hfresh : ∀ x ∈ PTree.keys t, event_equals k x = false) :
    QBST (qins t k v) := by
  induction t with
  | leaf =>
    refine QBST.node ?_ ?_ QBST.leaf QBST.leaf <;>
      simp [PTree.keys, PTree.pairs]
  | node k0 v0 l r ihl ihr =>
    cases hb with
    | node hl hr hbl hbr =>
    have hndq : QND (qins (PTree.node k0 v0 l r) k v) := qins_nd hnd hfresh
    by_cases hc : compare_events k k0 = true
    · have he : event_equals k k0 = false := ce_ee_false hc
      cases l with
      | leaf =>
        rw [qins_unfold_left_leaf hc he]
        rw [qins_unfold_left_leaf hc he] at hndq
        refine qbst_balanceStep (QBST.node ?_ hr
          (QBST.node (by simp [PTree.keys, PTree.pairs])
            (by simp [PTree.keys, PTree.pairs]) QBST.leaf QBST.leaf) hbr)
          (qnd_of_balanceStep hndq)
        intro x hx
        have hxk : x = k := by
          simpa [PTree.keys, PTree.pairs] using hx
        subst hxk
        exact hc
      | node lk lv ll lr =>
        rw [qins_unfold_left_node hc he]
        rw [qins_unfold_left_node hc he] at hndq
        refine qbst_balanceStep (QBST.node ?_ hr ?_ hbr)
          (qnd_of_balanceStep hndq)
        · intro x hx
          rcases qins_keys_mem _ k v x hx with rfl | hx2
          · exact hc
          · exact hl x hx2
        · exact ihl hbl (qnd_left hnd) (fun x hx => hfresh x (by
            rw [keys_node]
            exact List.mem_append_left _ hx))
    · rw [Bool.not_eq_true] at hc
      cases r with
      | leaf =>
        rw [qins_unfold_right_leaf hc]
        rw [qins_unfold_right_leaf hc] at hndq
        refine qbst_balanceStep (QBST.node hl ?_ hbl
          (QBST.node (by simp [PTree.keys, PTree.pairs])
            (by simp [PTree.keys, PTree.pairs]) QBST.leaf QBST.leaf))
          (qnd_of_balanceStep hndq)
        intro x hx
        have hxk : x = k := by
          simpa [PTree.keys, PTree.pairs] using hx
        subst hxk
        exact hc
      | node rk rv rl rr =>
        rw [qins_unfold_right_node hc]
        rw [qins_unfold_right_node hc] at hndq
        refine qbst_balanceStep (QBST.node hl ?_ hbl ?_)
          (qnd_of_balanceStep hndq)
        · intro x hx
          rcases qins_keys_mem _ k v x hx with rfl | hx2
          · exact hc
          · exact hr x hx2
        · exact ihr hbr (qnd_right hnd) (fun x hx => hfresh x (by
            rw [keys_node]
            exact List.mem_append_right _ (List.mem_cons_of_mem _ hx)))

theorem qkv_qins {t : PTree EPoint EPoint} {k : EPoint} (hkv : QKV t) :
    QKV (qins t k k) := by
  intro pr hpr
  rcases qins_pairs_mem t k k pr hpr with rfl | h
  · rfl
  · exact hkv pr h

theorem pop_lowest_pairs {K V : Type} {t t' : PTree K V} {v : V}
    (h : PTree.pop_lowest t = some (v, t')) :
    ∃ k, PTree.pairs t = (k, v) :: PTree.pairs t' := by
  induction t generalizing v t' with
  | leaf => cases h
  | node k0 v0 l r ihl ihr =>
    cases l with
    | leaf =>
      simp only [PTree.pop_lowest, Option.some.injEq, Prod.mk.injEq] at h
      obtain ⟨rfl, rfl⟩ := h
      exact ⟨k0, by simp [PTree.pairs]⟩
    | node lk lv ll lr =>
      simp only [PTree.pop_lowest] at h
      cases hl : PTree.pop_lowest (PTree.node lk lv ll lr) with
      | none => rw [hl] at h; cases h
      | some p =>
        obtain ⟨w, l2⟩ := p
        rw [hl] at h
        simp only [Option.some.injEq, Prod.mk.injEq] at h
        obtain ⟨rfl, rfl⟩ := h
        obtain ⟨km, hkm⟩ := ihl hl
        refine ⟨km, ?_⟩
        rw [show PTree.pairs (PTree.node k0 v0 (PTree.node lk lv ll lr) r) =
          PTree.pairs (PTree.node lk lv ll lr) ++ (k0, v0) :: PTree.pairs r
          from rfl, hkm]
        rfl

theorem pop_lowest_keys {t t' : PTree EPoint EPoint} {v : EPoint}
    (h : PTree.pop_lowest t = some (v, t')) :
    ∃ k, PTree.keys t = k :: PTree.keys t' := by
  obtain ⟨k, hk⟩ := pop_lowest_pairs h
  exact ⟨k, by simp [PTree.keys, hk]⟩

theorem pop_lowest_bst {t t' : PTree EPoint EPoint} {v : EPoint}
    (hb : QBST t) (h : PTree.pop_lowest t = some (v, t')) : QBST t' := by
  induction t generalizing v t' with
  | leaf => cases h
  | node k0 v0 l r ihl ihr =>
    cases hb with
    | node hl hr hbl hbr =>
    cases l with
    | leaf =>
      simp only [PTree.pop_lowest, Option.some.injEq, Prod.mk.injEq] at h
      obtain ⟨rfl, rfl⟩ := h
      exact hbr
    | node lk lv ll lr =>
      simp only [PTree.pop_lowest] at h
      cases hpl : PTree.pop_lowest (PTree.node lk lv ll lr) with
      | none => rw [hpl] at h; cases h
      | some p =>
        obtain ⟨w, l2⟩ := p
        rw [hpl] at h
        simp only [Option.some.injEq, Prod.mk.injEq] at h
        obtain ⟨rfl, rfl⟩ := h
        obtain ⟨km, hkm⟩ := pop_lowest_keys hpl
        refine QBST.node ?_ hr (ihl hbl hpl) hbr
        intro x hx
        refine hl x ?_
        rw [hkm]
        exact List.mem_cons_of_mem _ hx

theorem pop_lowest_nd {t t' : PTree EPoint EPoint} {v : EPoint}
    (hnd : QND t) (h : PTree.pop_lowest t = some (v, t')) : QND t' := by
  obtain ⟨k, hk⟩ := pop_lowest_keys h
  unfold QND at hnd ⊢
  rw [hk] at hnd
  exact (List.pairwise_cons.mp hnd).2

theorem pop_lowest_kv {t t' : PTree EPoint EPoint} {v : EPoint}
    (hkv : QKV t) (h : PTree.pop_lowest t = some (v, t')) : QKV t' := by
  obtain ⟨k, hk⟩ := pop_lowest_pairs h
  intro pr hpr
  exact hkv pr (by rw [hk]; exact List.mem_cons_of_mem _ hpr)

theorem qkv_left {k v : EPoint} {l r : PTree EPoint EPoint}
    (h : QKV (PTree.node k v l r)) : QKV l :=
  fun pr hpr => h pr (mem_pairs_left hpr)

/-- The value popped by `pop_lowest` sorts strictly before every key left in
the queue (strictness uses coordinate-distinctness of the stored keys). -/
theorem pop_lowest_min {t t' : PTree EPoint EPoint} {v : EPoint}
    (hb : QBST t) (hnd : QND t) (hkv : QKV t)
    (h : PTree.pop_lowest t = some (v, t')) :
    ∀ x ∈ PTree.keys t', compare_events v x = true := by
  induction t generalizing v t' with
  | leaf => cases h
  | node k0 v0 l r ihl ihr =>
    cases hb with
    | node hl hr hbl hbr =>
    have hndt := hnd
    unfold QND at hndt
    rw [keys_node] at hndt
    cases l with
    | leaf =>
      simp only [PTree.pop_lowest, Option.some.injEq, Prod.mk.injEq] at h
      obtain ⟨hv, ht⟩ := h
      subst ht
      intro x hx
      rw [← hv]
      have hk0 : k0 = v0 := hkv (k0, v0) (mem_pairs_root _ _ _ _)
      rw [← hk0]
      have hee : event_equals k0 x = false := by
        have h2 := (List.pairwise_append.mp hndt).2.1
        exact (List.pairwise_cons.mp h2).1 x hx
      refine ce_total (hr x hx) ?_
      rw [ee_symm]
      exact hee
    | node lk lv ll lr =>
      simp only [PTree.pop_lowest] at h
      cases hpl : PTree.pop_lowest (PTree.node lk lv ll lr) with
      | none => rw [hpl] at h; cases h
      | some p =>
        obtain ⟨w, l2⟩ := p
        rw [hpl] at h
        simp only [Option.some.injEq, Prod.mk.injEq] at h
        obtain ⟨hv, ht⟩ := h
        subst ht
        obtain ⟨km, hkm⟩ := pop_lowest_pairs hpl
        have hkmv : km = w := hkv (km, w) (mem_pairs_left (by
          rw [hkm]
          exact List.mem_cons_self _ _))
        have hkml : km ∈ PTree.keys (PTree.node lk lv ll lr) := by
          have hmem : (km, w) ∈ PTree.pairs (PTree.node lk lv ll lr) := by
            rw [hkm]
            exact List.mem_cons_self _ _
          simp only [PTree.keys, List.mem_map]
          exact ⟨(km, w), hmem, rfl⟩
        have hvk0 : compare_events w k0 = true := by
          rw [← hkmv]
          exact hl km hkml
        intro x hx
        rw [← hv]
        rw [keys_node] at hx
        rcases List.mem_append.mp hx with hx | hx
        · exact ihl hbl (qnd_left hnd) (qkv_left hkv) hpl x hx
        · rcases List.mem_cons.mp hx with rfl | hx
          · exact hvk0
          · refine ce_trans hvk0 (ce_total (hr x hx) ?_)
            rw [ee_symm]
            exact (List.pairwise_cons.mp
              (List.pairwise_append.mp hndt).2.1).1 x hx

/-- If some stored key is coordinate-equal to the probe, `is_in` finds it. -/
theorem is_in_complete {t : PTree EPoint EPoint} (hb : QBST t)
    {key x : EPoint} (hx : x ∈ PTree.keys t)
    (hee : event_equals key x = true) :
    PTree.is_in compare_events event_equals t key = true := by
  induction t with
  | leaf => simp [PTree.keys, PTree.pairs] at hx
  | node k0 v0 l r ihl ihr =>
    cases hb with
    | node hl hr hbl hbr =>
    rw [keys_node] at hx
    by_cases hek : event_equals key k0 = true
    · simp [PTree.is_in, hek]
    · rw [Bool.not_eq_true] at hek
      rcases List.mem_append.mp hx with hx | hx
      · have hcl : compare_events key k0 = true := by
          rw [ce_congr_left hee]
          exact hl x hx
        cases l with
        | leaf => simp [PTree.keys, PTree.pairs] at hx
        | node lk lv ll lr =>
          simp only [PTree.is_in, hek, Bool.false_eq_true, if_false, hcl,
            if_true]
          exact ihl hbl hx
      · rcases List.mem_cons.mp hx with rfl | hx
        · rw [hee] at hek
          cases hek
        · have hcl : compare_events key k0 = false := by
            rw [ce_congr_left hee]
            exact hr x hx
          cases r with
          | leaf => simp [PTree.keys, PTree.pairs] at hx
          | node rk rv rl rr =>
            simp only [PTree.is_in, hek, Bool.false_eq_true, if_false, hcl,
              if_true]
            exact ihr hbr hx

theorem avl_is_in_eq (t : PTree EPoint EPoint) (key : EPoint) :
    PTree.avl_is_in compare_events event_equals t key =
      PTree.is_in compare_events event_equals t key := by
  cases t <;> rfl

/-- `find_new_event` preserves the queue invariants and only ever inserts a
point that is strictly after the current event in sweep order. -/
theorem fne_spec {q q2 : PTree EPoint EPoint} {c c2 : Nat} {a b : Line}
    {p : EPoint} (hb : QBST q) (hnd : QND q) (hkv : QKV q)
    (h : find_new_event q c a b p = Except.ok (q2, c2)) :
    QBST q2 ∧ QND q2 ∧ QKV q2 ∧
      ∀ x ∈ PTree.keys q2, x ∈ PTree.keys q ∨ compare_events p x = true := by
  unfold find_new_event at h
  split at h
  · simp only [Except.ok.injEq, Prod.mk.injEq] at h
    obtain ⟨rfl, rfl⟩ := h
    exact ⟨hb, hnd, hkv, fun x hx => Or.inl hx⟩
  · cases h
  · rename_i ix iy hli
    split at h
    · rename_i hcond
      simp only [] at h
      split at h
      · rename_i hin
        simp only [Except.ok.injEq, Prod.mk.injEq] at h
        obtain ⟨rfl, rfl⟩ := h
        exact ⟨hb, hnd, hkv, fun x hx => Or.inl hx⟩
      · rename_i hin
        simp only [Except.ok.injEq, Prod.mk.injEq] at h
        obtain ⟨hq2, rfl⟩ := h
        rw [avl_insert_eq_qins] at hq2
        subst hq2
        rw [Bool.not_eq_true, avl_is_in_eq] at hin
        have hfresh : ∀ x ∈ PTree.keys q,
            event_equals (⟨ix, iy, c⟩ : EPoint) x = false := by
          intro x hx
          by_contra hc2
          rw [Bool.not_eq_false] at hc2
          rw [is_in_complete hb hx hc2] at hin
          cases hin
        have hce : compare_events p ⟨ix, iy, c⟩ = true := by
          rw [compare_events_iff]
          rcases hcond with h1 | ⟨h1, h2⟩
          · exact Or.inl h1
          · exact Or.inr ⟨h1.symm, h2⟩
        refine ⟨qins_bst hb hnd hfresh, qins_nd hnd hfresh, qkv_qins hkv, ?_⟩
        intro x hx
        rcases qins_keys_mem _ _ _ x hx with rfl | hx2
        · exact Or.inr hce
        · exact Or.inl hx2
    · simp only [Except.ok.injEq, Prod.mk.injEq] at h
      obtain ⟨rfl, rfl⟩ := h
      exact ⟨hb, hnd, hkv, fun x hx => Or.inl hx⟩

/-- The guarded neighbour call has the same specification. -/
theorem neighborStep_spec {q q2 : PTree EPoint EPoint} {c c2 : Nat}
    {nOpt : Option Line} {seg : Line} {p : EPoint}
    (hb : QBST q) (hnd : QND q) (hkv : QKV q)
    (h : neighborStep q c nOpt seg p = Except.ok (q2, c2)) :
    QBST q2 ∧ QND q2 ∧ QKV q2 ∧
      ∀ x ∈ PTree.keys q2, x ∈ PTree.keys q ∨ compare_events p x = true := by
  cases nOpt with
  | none =>
    simp only [neighborStep, Except.ok.injEq, Prod.mk.injEq] at h
    obtain ⟨rfl, rfl⟩ := h
    exact ⟨hb, hnd, hkv, fun x hx => Or.inl hx⟩
  | some n =>
    simp only [neighborStep] at h
    split_ifs at h with hlid
    · exact fne_spec hb hnd hkv h
    · simp only [Except.ok.injEq, Prod.mk.injEq] at h
      obtain ⟨rfl, rfl⟩ := h
      exact ⟨hb, hnd, hkv, fun x hx => Or.inl hx⟩

theorem growth_trans {q0 q1 q2 : PTree EPoint EPoint} {p : EPoint}
    (g1 : ∀ x ∈ PTree.keys q1, x ∈ PTree.keys q0 ∨ compare_events p x = true)
    (g2 : ∀ x ∈ PTree.keys q2, x ∈ PTree.keys q1 ∨ compare_events p x = true) :
    ∀ x ∈ PTree.keys q2, x ∈ PTree.keys q0 ∨ compare_events p x = true := by
  intro x hx
  rcases g2 x hx with h1 | h1
  · exact g1 x h1
  · exact Or.inr h1

/-- `handle_event_points` touches the event queue only through
`find_new_event`: the invariants are preserved, every new key is strictly
after the handled event, and at most one record — for the handled point — is
appended. -/
theorem handle_queue_spec {segs : List Line} {p : EPoint}
    {st st2 : PTree ℚ Line} {q q2 : PTree EPoint EPoint} {c c2 : Nat}
    {recs recs2 : List (EPoint × List Line)}
    (hb : QBST q) (hnd : QND q) (hkv : QKV q)
    (h : handle_event_points segs p st q c recs =
      Except.ok (st2, q2, c2, recs2)) :
    (QBST q2 ∧ QND q2 ∧ QKV q2 ∧
      ∀ x ∈ PTree.keys q2, x ∈ PTree.keys q ∨ compare_events p x = true) ∧
    (recs2 = recs ∨ ∃ ss, recs2 = recs ++ [(p, ss)]) := by
  have hrec : ∀ (cond : Prop) [Decidable cond] (ss : List Line)
      (hr2 : recs2 = if cond then recs ++ [(p, ss)] else recs),
      recs2 = recs ∨ ∃ ss2, recs2 = recs ++ [(p, ss2)] := by
    intro cond _ ss hr2
    by_cases hcond : cond
    · rw [if_pos hcond] at hr2
      exact Or.inr ⟨ss, hr2⟩
    · rw [if_neg hcond] at hr2
      exact Or.inl hr2
  simp only [handle_event_points] at h
  split at h
  · cases h
  · rename_i status2 lower_p upper_p contains_p hcl
    split at h
    · -- (upper ++ contains) empty: neighbour lookup branch
      split at h
      · rename_i ls rs hfn
        split at h
        · cases h
        · rename_i q' c' hfne
          simp only [Except.ok.injEq, Prod.mk.injEq] at h
          obtain ⟨-, rfl, rfl, rfl⟩ := h
          exact ⟨fne_spec hb hnd hkv hfne, hrec _ _ rfl⟩
      · simp only [Except.ok.injEq, Prod.mk.injEq] at h
        obtain ⟨-, rfl, rfl, rfl⟩ := h
        exact ⟨⟨hb, hnd, hkv, fun x hx => Or.inl hx⟩, hrec _ _ rfl⟩
    · -- upper ∪ contains non-empty: by-pair neighbour branch
      split at h
      · cases h
      · rename_i s0 o0 rest
        split at h
        · cases h
        · rename_i q1 c1 hL
          split at h
          · cases h
          · rename_i q2' c2' hR
            simp only [Except.ok.injEq, Prod.mk.injEq] at h
            obtain ⟨-, rfl, rfl, rfl⟩ := h
            obtain ⟨hb1, hnd1, hkv1, hg1⟩ := neighborStep_spec hb hnd hkv hL
            obtain ⟨hb2, hnd2, hkv2, hg2⟩ := neighborStep_spec hb1 hnd1 hkv1 hR
            exact ⟨⟨hb2, hnd2, hkv2, growth_trans hg1 hg2⟩, hrec _ _ rfl⟩

/-- Drain-loop invariant: the records accumulated so far are sorted and sort
strictly before everything still queued; then the final list is sorted. -/
theorem loopFI_sorted {segs : List Line} :
    ∀ (fuel : Nat) (st : PTree ℚ Line) (q : PTree EPoint EPoint) (c : Nat)
      (recs out : List (EPoint × List Line)),
      loopFI segs fuel st q c recs = Except.ok out →
      QBST q → QND q → QKV q →
      recs.Pairwise (fun a b => compare_events a.1 b.1 = true) →
      (∀ r ∈ recs, ∀ x ∈ PTree.keys q, compare_events r.1 x = true) →
      out.Pairwise (fun a b => compare_events a.1 b.1 = true) := by
  intro fuel
  induction fuel with
  | zero =>
    intro st q c recs out h
    cases h
  | succ n ih =>
    intro st q c recs out h hb hnd hkv hsorted hbefore
    simp only [loopFI] at h
    split at h
    · rename_i hpop
      simp only [Except.ok.injEq] at h
      subst h
      exact hsorted
    · rename_i pr p q' hpop
      split at h
      · cases h
      · rename_i out2 st2 q2 c2 recs2 hh
        have hb' := pop_lowest_bst hb hpop
        have hnd' := pop_lowest_nd hnd hpop
        have hkv' := pop_lowest_kv hkv hpop
        have hmin := pop_lowest_min hb hnd hkv hpop
        obtain ⟨k, hk⟩ := pop_lowest_pairs hpop
        have hkp : k = p :=
          hkv (k, p) (by rw [hk]; exact List.mem_cons_self _ _)
        subst hkp
        have hpk : k ∈ PTree.keys q := by
          simp only [PTree.keys, List.mem_map]
          exact ⟨(k, k), by rw [hk]; exact List.mem_cons_self _ _, rfl⟩
        have hsub : ∀ x ∈ PTree.keys q', x ∈ PTree.keys q := by
          intro x hx
          have : PTree.keys q = k :: PTree.keys q' := by
            simp [PTree.keys, hk]
          rw [this]
          exact List.mem_cons_of_mem _ hx
        obtain ⟨⟨hb2, hnd2, hkv2, hg⟩, hrecs⟩ := handle_queue_spec hb' hnd'
          hkv' hh
        refine ih st2 q2 c2 recs2 out h hb2 hnd2 hkv2 ?_ ?_
        · rcases hrecs with rfl | ⟨ss, rfl⟩
          · exact hsorted
          · rw [List.pairwise_append]
            refine ⟨hsorted, List.pairwise_singleton _ _, ?_⟩
            intro r hr b hb3
            rcases List.mem_singleton.mp hb3 with rfl
            exact hbefore r hr k hpk
        · intro r hr x hx
          rcases hg x hx with hx2 | hx2
          · rcases hrecs with rfl | ⟨ss, rfl⟩
            · exact hbefore r hr x (hsub x hx2)
            · rcases List.mem_append.mp hr with hr2 | hr2
              · exact hbefore r hr2 x (hsub x hx2)
              · rcases List.mem_singleton.mp hr2 with rfl
                exact hmin x hx2
          · rcases hrecs with rfl | ⟨ss, rfl⟩
            · exact ce_trans (hbefore r hr k hpk) hx2
            · rcases List.mem_append.mp hr with hr2 | hr2
              · exact ce_trans (hbefore r hr2 k hpk) hx2
              · rcases List.mem_singleton.mp hr2 with rfl
                exact hx2

theorem snd_mem_enumFrom {α : Type} :
    ∀ (l : List α) (n : Nat) (pr : Nat × α), pr ∈ l.enumFrom n → pr.2 ∈ l := by
  intro l
  induction l with
  | nil => intro n pr h; cases h
  | cons x xs ih =>
    intro n pr h
    simp only [List.enumFrom] at h
    rcases List.mem_cons.mp h with rfl | h
    · exact List.mem_cons_self _ _
    · exact List.mem_cons_of_mem _ (ih (n + 1) pr h)

theorem pairwise_enumFrom {α : Type} {R : α → α → Prop} :
    ∀ (n : Nat) (l : List α), l.Pairwise R →
      (l.enumFrom n).Pairwise (fun a b => R a.2 b.2) := by
  intro n l
  induction l generalizing n with
  | nil => intro _; exact List.Pairwise.nil
  | cons x xs ih =>
    intro h
    obtain ⟨hhead, htail⟩ := List.pairwise_cons.mp h
    simp only [List.enumFrom]
    refine List.pairwise_cons.mpr ⟨?_, ih (n + 1) htail⟩
    intro b hb
    exact hhead b.2 (snd_mem_enumFrom xs (n + 1) b hb)

theorem dedupFirst_go_pairwise :
    ∀ (l : List (ℚ × ℚ)) (acc : List (ℚ × ℚ)), acc.Pairwise (· ≠ ·) →
      (l.foldl (fun acc p => if p ∈ acc then acc else acc ++ [p])
        acc).Pairwise (· ≠ ·) := by
  intro l
  induction l with
  | nil => intro acc h; exact h
  | cons p rest ih =>
    intro acc hacc
    simp only [List.foldl]
    by_cases hp : p ∈ acc
    · rw [if_pos hp]
      exact ih acc hacc
    · rw [if_neg hp]
      refine ih _ ?_
      rw [List.pairwise_append]
      refine ⟨hacc, List.pairwise_singleton _ _, ?_⟩
      intro a ha b hb
      rcases List.mem_singleton.mp hb with rfl
      intro hab
      exact hp (hab ▸ ha)

theorem dedupFirst_pairwise (l : List (ℚ × ℚ)) :
    (dedupFirst l).Pairwise (· ≠ ·) :=
  dedupFirst_go_pairwise l [] List.Pairwise.nil

theorem factory_pairwise (lines : List ((ℚ × ℚ) × (ℚ × ℚ))) :
    (event_point_factory lines).Pairwise
      (fun a b => event_equals a b = false) := by
  unfold event_point_factory
  rw [List.pairwise_map]
  have h1 := dedupFirst_pairwise
    (lines.map (fun l => l.1) ++ lines.map (fun l => l.2))
  have h2 := pairwise_enumFrom 0 _ h1
  rw [List.enum]
  refine h2.imp ?_
  intro a b hab
  rw [← Bool.not_eq_true, event_equals_iff]
  rintro ⟨hx, hy⟩
  exact hab (Prod.ext hx hy)

theorem qfold_spec :
    ∀ (ps : List EPoint) (acc : PTree EPoint EPoint),
      QBST acc → QND acc → QKV acc →
      ps.Pairwise (fun a b => event_equals a b = false) →
      (∀ x ∈ PTree.keys acc, ∀ pp ∈ ps, event_equals pp x = false) →
      QBST (ps.foldl (fun t pp => qins t pp pp) acc) ∧
      QND (ps.foldl (fun t pp => qins t pp pp) acc) ∧
      QKV (ps.foldl (fun t pp => qins t pp pp) acc) := by
  intro ps
  induction ps with
  | nil => intro acc hb hnd hkv _ _; exact ⟨hb, hnd, hkv⟩
  | cons pp rest ih =>
    intro acc hb hnd hkv hpw hsep
    obtain ⟨hhead, htail⟩ := List.pairwise_cons.mp hpw
    have hfresh : ∀ x ∈ PTree.keys acc, event_equals pp x = false :=
      fun x hx => hsep x hx pp (List.mem_cons_self _ _)
    simp only [List.foldl]
    refine ih (qins acc pp pp) (qins_bst hb hnd hfresh)
      (qins_nd hnd hfresh) (qkv_qins hkv) htail ?_
    intro x hx qq hqq
    rcases qins_keys_mem _ _ _ x hx with rfl | hx2
    · rw [ee_symm]
      exact hhead qq hqq
    · exact hsep x hx2 qq (List.mem_cons_of_mem _ hqq)

theorem qfold_eq :
    ∀ (ps : List EPoint) (acc : PTree EPoint EPoint),
      ps.foldl (fun acc el =>
        PTree.avl_insert compare_events event_equals pointIs acc
          (el, el)) acc =
      ps.foldl (fun t pp => qins t pp pp) acc := by
  intro ps
  induction ps with
  | nil => intro acc; rfl
  | cons y ys ihy =>
    intro acc
    simp only [List.foldl]
    rw [avl_insert_eq_qins, ihy]

/-- The seeded event queue is a well-formed search tree. -/
theorem qinit_spec (pts : List EPoint)
    (hpw : pts.Pairwise (fun a b => event_equals a b = false)) :
    QBST (PTree.avl_init compare_events event_equals pointIs
        (pts.map (fun p => (p, p)))).1 ∧
    QND (PTree.avl_init compare_events event_equals pointIs
        (pts.map (fun p => (p, p)))).1 ∧
    QKV (PTree.avl_init compare_events event_equals pointIs
        (pts.map (fun p => (p, p)))).1 := by
  cases pts with
  | nil =>
    refine ⟨QBST.leaf, ?_, ?_⟩
    · exact List.Pairwise.nil
    · intro pr hpr
      cases hpr
  | cons p0 rest =>
    obtain ⟨hhead, htail⟩ := List.pairwise_cons.mp hpw
    simp only [List.map, PTree.avl_init, List.foldl_map]
    have hsingle_b : QBST (PTree.node p0 p0 PTree.leaf PTree.leaf) := by
      refine QBST.node ?_ ?_ QBST.leaf QBST.leaf <;>
        simp [PTree.keys, PTree.pairs]
    have hsingle_nd : QND (PTree.node p0 p0 PTree.leaf PTree.leaf) := by
      unfold QND
      simp [PTree.keys, PTree.pairs]
    have hsingle_kv : QKV (PTree.node p0 p0 PTree.leaf PTree.leaf) := by
      intro pr hpr
      simp only [PTree.pairs, List.nil_append, List.mem_singleton,
        List.not_mem_nil, or_false] at hpr
      rw [hpr]
    rw [qfold_eq]
    refine qfold_spec rest _ hsingle_b hsingle_nd hsingle_kv htail ?_
    intro x hx qq hqq
    have hxp : x = p0 := by
      simpa [PTree.keys, PTree.pairs] using hx
    subst hxp
    rw [ee_symm]
    exact hhead qq hqq

/-- C2: for every input segment list, the records returned by a successful
run of `search_intersections` are strictly monotone in sweep order: an
earlier record's point has strictly greater y, or equal y and strictly
smaller x, than any later record's point. -/
theorem c2_records_monotone (lines : List ((ℚ × ℚ) × (ℚ × ℚ))) (fuel : Nat)
    (recs : List (EPoint × List Line))
    (h : search_intersections lines fuel = Except.ok recs) :
    recs.Pairwise
      (fun a b => a.1.y > b.1.y ∨ (a.1.y = b.1.y ∧ a.1.x < b.1.x)) := by
  have hce : recs.Pairwise (fun a b => compare_events a.1 b.1 = true) := by
    unfold search_intersections find_intersections at h
    have hfac := factory_pairwise lines
    obtain ⟨hb, hnd, hkv⟩ := qinit_spec _ hfac
    exact loopFI_sorted fuel _ _ _ [] recs h hb hnd hkv List.Pairwise.nil
      (by intro r hr; cases hr)
  refine hce.imp ?_
  intro a b hab
  rcases compare_events_iff.mp hab with h1 | h2
  · exact Or.inl h1
  · exact Or.inr h2

/-- Witness for C2 at the crossing-scenario input. -/
theorem c2_records_monotone_witness :
    ([twoCrossRec] : List (EPoint × List Line)).Pairwise
      (fun a b => a.1.y > b.1.y ∨ (a.1.y = b.1.y ∧ a.1.x < b.1.x)) :=
  c2_records_monotone [((0, 0), (2, 2)), ((0, 2), (2, 0))] 32 [twoCrossRec]
    search_two_crossing_eval

end LI
